import Mathlib

/-!
Shallow embedding of the compiled-schema validator of `valrs-wasm`
(`src/crates/valrs-wasm/src/lib.rs`) together with the result types of the
`valrs` crate (`src/crates/valrs/src/types.rs`), and proofs about the claims
of the specification.

Modelling conventions:
  * `serde_json::Value` is modelled by `Jval`; JSON objects are association
    lists in declaration order (serde maps have unique keys, so first-match
    lookup coincides with map lookup).
  * Rust `f64` numbers are modelled by `Rat`; the validator only ever
    compares numbers, and both engines share the comparison, so the exact
    float representation is irrelevant to every claim treated here.  The
    `Display` rendering of a float inside an issue message is abstracted by
    `toString`.
  * Rust `String` is modelled by Lean `String`:
    `s.chars().count()` is `s.length` and `s.len()` (UTF-8 bytes) is
    `s.utf8ByteSize`, both exact.
  * Stacks (`Vec` used with push/pop) are Lean lists with the top at the
    head; Rust iterates them root-first, which is `List.reverse` here.
  * The interpreter loops are modelled by a step function iterated under
    fuel (`run`); the claims are stated for every fuel at which the run
    terminates.
  * The forward scans of the interpreters (`skip to next property`,
    `skip to ExitArray`) advance an index by one per iteration and stop at
    `ops.length` at the latest, so `ops.length + 1` units of fuel make the
    fuelled scan exactly the Rust loop.
-/

/-- Type tags for efficient type checking (enum `TypeTag`). -/
inductive TypeTag where
  | string
  | number
  | integer
  | boolean
  | null
  | object
  | array
deriving DecidableEq

/-- `TypeTag::name`: human-readable name of a type tag. -/
def TypeTag.name : TypeTag → String
  | .string => "string"
  | .number => "number"
  | .integer => "integer"
  | .boolean => "boolean"
  | .null => "null"
  | .object => "object"
  | .array => "array"

/-- `parse_type_tag`: parses a JSON Schema type string into a `TypeTag`. -/
def parse_type_tag (type_str : String) : Option TypeTag :=
  match type_str with
  | "string" => some TypeTag.string
  | "number" => some TypeTag.number
  | "integer" => some TypeTag.integer
  | "boolean" => some TypeTag.boolean
  | "null" => some TypeTag.null
  | "object" => some TypeTag.object
  | "array" => some TypeTag.array
  | _ => none

/-- `serde_json::Number`: an integral (`i64`/`u64`) or floating (`f64`) number. -/
inductive JNumber where
  | int (n : Int)
  | float (q : Rat)
deriving DecidableEq

/-- `Number::as_f64` (always succeeds on both variants; the lossy `i64 → f64`
conversion is modelled as the exact cast into `Rat`). -/
def JNumber.as_f64 : JNumber → Rat
  | .int n => (n : Rat)
  | .float q => q

/-- `Number::as_u64`: succeeds exactly on non-negative integral numbers. -/
def JNumber.as_u64 : JNumber → Option Nat
  | .int n => if 0 ≤ n then some n.toNat else none
  | .float _ => none

/-- `serde_json::Value`.  Objects are association lists in declaration order. -/
inductive Jval where
  | null
  | bool (b : Bool)
  | num (n : JNumber)
  | str (s : String)
  | arr (items : List Jval)
  | obj (fields : List (String × Jval))

/-- `Value::as_object`. -/
def Jval.as_object : Jval → Option (List (String × Jval))
  | .obj fields => some fields
  | _ => none

/-- `Value::as_array`. -/
def Jval.as_array : Jval → Option (List Jval)
  | .arr items => some items
  | _ => none

/-- `Value::as_str`. -/
def Jval.as_str : Jval → Option String
  | .str s => some s
  | _ => none

/-- `Value::as_f64` (some exactly on numbers). -/
def Jval.as_f64 : Jval → Option Rat
  | .num n => some n.as_f64
  | _ => none

/-- `check_type_tag`: checks if a JSON value matches a type tag
(`Integer` means `is_i64() || is_u64()`, i.e. the integral variant). -/
def check_type_tag (value : Jval) (expected : TypeTag) : Bool :=
  match expected with
  | .string => match value with | .str _ => true | _ => false
  | .number => match value with | .num _ => true | _ => false
  | .integer => match value with | .num (.int _) => true | _ => false
  | .boolean => match value with | .bool _ => true | _ => false
  | .null => match value with | .null => true | _ => false
  | .object => match value with | .obj _ => true | _ => false
  | .array => match value with | .arr _ => true | _ => false

/-- `json_type_name`: human-readable type name of a JSON value. -/
def json_type_name : Jval → String
  | .null => "null"
  | .bool _ => "boolean"
  | .num (.int _) => "integer"
  | .num (.float _) => "number"
  | .str _ => "string"
  | .arr _ => "array"
  | .obj _ => "object"

/-- `ValidationOp`: the compiled instruction set. -/
inductive ValidationOp where
  | checkType (tag : TypeTag)
  | enterObject
  | checkProperty (key : String) (required : Bool)
  | exitObject
  | enterArray
  | checkArrayItems
  | exitArray
  | checkMinimum (min : Rat)
  | checkMaximum (max : Rat)
  | checkExclusiveMinimum (min : Rat)
  | checkExclusiveMaximum (max : Rat)
  | checkMinLength (min : Nat)
  | checkMaxLength (max : Nat)
  | checkMinItems (min : Nat)
  | checkMaxItems (max : Nat)
  | done
deriving DecidableEq

/-- `CompiledSchema`: a flat list of validation operations. -/
structure CompiledSchema where
  ops : List ValidationOp
deriving DecidableEq

/-- `PathSegment` (valrs `types.rs`). -/
inductive PathSegment where
  | key (s : String)
  | index (i : Nat)
deriving DecidableEq

/-- `ValidationIssue` (valrs `types.rs`). -/
structure ValidationIssue where
  message : String
  path : Option (List PathSegment)
deriving DecidableEq

/-- `ValidationIssue::with_path`. -/
def ValidationIssue.with_path (message : String) (path : List PathSegment) : ValidationIssue :=
  { message := message, path := some path }

/-- `ValidationResult` (valrs `types.rs`). -/
inductive ValidationResult (T : Type) where
  | success (value : T)
  | failure (issues : List ValidationIssue)

/-- `ValidationResult::is_success`. -/
def ValidationResult.is_success {T : Type} : ValidationResult T → Bool
  | .success _ => true
  | .failure _ => false

/-- `ValidationResult::issues` (empty on success). -/
def ValidationResult.issues {T : Type} : ValidationResult T → List ValidationIssue
  | .success _ => []
  | .failure issues => issues

theorem sizeOf_lookup_lt {fields : List (String × Jval)} {k : String} {v : Jval}
    (h : List.lookup k fields = some v) : sizeOf v < sizeOf fields := by
  induction fields with
  | nil => simp [List.lookup] at h
  | cons hd tl ih =>
    obtain ⟨a, b⟩ := hd
    rw [List.lookup] at h
    cases hbe : (k == a) with
    | false =>
      rw [hbe] at h
      simp only [] at h
      have := ih h
      simp
      omega
    | true =>
      rw [hbe] at h
      simp only [Option.some.injEq] at h
      subst h
      simp
      omega

/-
`compile_schema_recursive` and the `properties` loop inlined in it.

In Rust `compile_schema_recursive(schema, ops)` pushes onto a `&mut Vec`;
here each function returns exactly the segment of operations it pushes, in
push order.  `compile_props` is the inlined `for (key, prop_schema) in
properties` loop, with the precomputed `required` membership set passed in
(`HashSet<&str>` membership is modelled by `List.contains`).
-/
mutual

/-- The recursive compilation pass over one schema node. -/
def compile_schema_recursive (schema : Jval) : List ValidationOp :=
  match schema with
  | .obj schema_obj =>
    let type_ops : List ValidationOp :=
      match List.lookup "type" schema_obj with
      | some type_value =>
        match type_value.as_str with
        | some type_str =>
          match parse_type_tag type_str with
          | some tag => [ValidationOp.checkType tag]
          | none => []
        | none => []
      | none => []
    let minimum_ops : List ValidationOp :=
      match List.lookup "minimum" schema_obj with
      | some (.num n) => [ValidationOp.checkMinimum n.as_f64]
      | _ => []
    let maximum_ops : List ValidationOp :=
      match List.lookup "maximum" schema_obj with
      | some (.num n) => [ValidationOp.checkMaximum n.as_f64]
      | _ => []
    let excl_min_ops : List ValidationOp :=
      match List.lookup "exclusiveMinimum" schema_obj with
      | some (.num n) => [ValidationOp.checkExclusiveMinimum n.as_f64]
      | _ => []
    let excl_max_ops : List ValidationOp :=
      match List.lookup "exclusiveMaximum" schema_obj with
      | some (.num n) => [ValidationOp.checkExclusiveMaximum n.as_f64]
      | _ => []
    let min_length_ops : List ValidationOp :=
      match List.lookup "minLength" schema_obj with
      | some (.num n) =>
        match n.as_u64 with
        | some v => [ValidationOp.checkMinLength v]
        | none => []
      | _ => []
    let max_length_ops : List ValidationOp :=
      match List.lookup "maxLength" schema_obj with
      | some (.num n) =>
        match n.as_u64 with
        | some v => [ValidationOp.checkMaxLength v]
        | none => []
      | _ => []
    let prop_ops : List ValidationOp :=
      match hp : List.lookup "properties" schema_obj with
      | some (.obj properties) =>
        let required : List String :=
          match List.lookup "required" schema_obj with
          | some (.arr vs) => vs.filterMap Jval.as_str
          | _ => []
        ValidationOp.enterObject ::
          (compile_props required properties ++ [ValidationOp.exitObject])
      | _ => []
    let min_items_ops : List ValidationOp :=
      match List.lookup "minItems" schema_obj with
      | some (.num n) =>
        match n.as_u64 with
        | some v => [ValidationOp.checkMinItems v]
        | none => []
      | _ => []
    let max_items_ops : List ValidationOp :=
      match List.lookup "maxItems" schema_obj with
      | some (.num n) =>
        match n.as_u64 with
        | some v => [ValidationOp.checkMaxItems v]
        | none => []
      | _ => []
    let items_ops : List ValidationOp :=
      match hi : List.lookup "items" schema_obj with
      | some items_schema =>
        ValidationOp.enterArray :: ValidationOp.checkArrayItems ::
          (compile_schema_recursive items_schema ++ [ValidationOp.exitArray])
      | none => []
    type_ops ++ minimum_ops ++ maximum_ops ++ excl_min_ops ++ excl_max_ops ++
      min_length_ops ++ max_length_ops ++ prop_ops ++ min_items_ops ++
      max_items_ops ++ items_ops
  | _ => []
termination_by sizeOf schema
decreasing_by
  · have h1 := sizeOf_lookup_lt hp
    simp at h1 ⊢
    omega
  · have h1 := sizeOf_lookup_lt hi
    simp at h1 ⊢
    omega

/-- The `for (key, prop_schema) in properties` loop of the compiler. -/
def compile_props (required : List String) (properties : List (String × Jval)) :
    List ValidationOp :=
  match properties with
  | [] => []
  | (key, prop_schema) :: rest =>
    ValidationOp.checkProperty key (required.contains key) ::
      (compile_schema_recursive prop_schema ++ compile_props required rest)
termination_by sizeOf properties
decreasing_by
  all_goals first
  | (simp; omega)
  | simp
  | omega

end

/-- `compile_schema`: compiles a JSON Schema into a `CompiledSchema`
(the recursive pass followed by the final `Done`). -/
def compile_schema (schema : Jval) : CompiledSchema :=
  { ops := compile_schema_recursive schema ++ [ValidationOp.done] }

/-- `ExecutionContext`: a frame of the traversal-context stack. -/
inductive ExecutionContext where
  | object (current_key : Option String)
  | array (current_index : Nat) (items_ops_start : Nat)
deriving DecidableEq

/-- The loop body of `get_current_value`, walking the frames root-first. -/
def navigate : Jval → List ExecutionContext → Option Jval
  | current, [] => some current
  | current, ExecutionContext.object none :: rest => navigate current rest
  | current, ExecutionContext.object (some key) :: rest =>
    match current.as_object with
    | some fields =>
      match List.lookup key fields with
      | some v => navigate v rest
      | none => none
    | none => none
  | current, ExecutionContext.array current_index _ :: rest =>
    match current.as_array with
    | some items =>
      match items[current_index]? with
      | some v => navigate v rest
      | none => none
    | none => none

/-- `get_current_value` (identical in both engines): resolves the focused
value by walking the context stack from the root.  The stack is stored top
at the head, Rust iterates root-first, hence the reverse. -/
def get_current_value (root : Jval) (context_stack : List ExecutionContext) : Option Jval :=
  navigate root context_stack.reverse

/-- The fuelled body of the forward scan used when a property's
sub-operations must be skipped: the Rust loop `while ip < len` that stops
(leaving `ip` one before the stopper) at the first `CheckProperty` at
nesting depth 0 or at the matching `ExitObject`/`ExitArray`. -/
def skip_scan_go (ops : List ValidationOp) : Nat → Nat → Nat → Nat
  | 0, ip, _ => ip
  | fuel + 1, ip, depth =>
    if h : ip < ops.length then
      match ops[ip] with
      | .enterObject => skip_scan_go ops fuel (ip + 1) (depth + 1)
      | .enterArray => skip_scan_go ops fuel (ip + 1) (depth + 1)
      | .exitObject => if depth = 0 then ip - 1 else skip_scan_go ops fuel (ip + 1) (depth - 1)
      | .exitArray => if depth = 0 then ip - 1 else skip_scan_go ops fuel (ip + 1) (depth - 1)
      | .checkProperty _ _ => if depth = 0 then ip - 1 else skip_scan_go ops fuel (ip + 1) depth
      | _ => skip_scan_go ops fuel (ip + 1) depth
    else ip

/-- The property-skip scan.  Every iteration of the Rust loop increments
`ip` and the loop always ends by `ip = ops.length`, so `ops.length + 1`
units of fuel reproduce the loop exactly. -/
def skip_scan (ops : List ValidationOp) (ip depth : Nat) : Nat :=
  skip_scan_go ops (ops.length + 1) ip depth

/-- The fuelled body of the scan to the matching `ExitArray` (the Rust loop
counting only `EnterArray`/`ExitArray`, decrementing first and breaking
when the counter reaches 0, leaving `ip` one before the `ExitArray`). -/
def skip_arr_go (ops : List ValidationOp) : Nat → Nat → Nat → Nat
  | 0, ip, _ => ip
  | fuel + 1, ip, depth =>
    if h : ip < ops.length then
      match ops[ip] with
      | .enterArray => skip_arr_go ops fuel (ip + 1) (depth + 1)
      | .exitArray => if depth = 1 then ip - 1 else skip_arr_go ops fuel (ip + 1) (depth - 1)
      | _ => skip_arr_go ops fuel (ip + 1) depth
    else ip

/-- The array-exit scan, with always-sufficient fuel as for `skip_scan`. -/
def skip_arr (ops : List ValidationOp) (ip depth : Nat) : Nat :=
  skip_arr_go ops (ops.length + 1) ip depth

/-- State of the full-diagnostic engine `execute_compiled`: accumulated
issues (in push order), the path stack and context stack (top at head),
and the instruction pointer. -/
structure FullState where
  issues : List ValidationIssue
  path_stack : List PathSegment
  context_stack : List ExecutionContext
  ip : Nat

/-- State of the boolean engine `execute_compiled_bool`. -/
structure BoolState where
  context_stack : List ExecutionContext
  ip : Nat

/-- Outcome of one interpreter step: continue in a new state or halt. -/
inductive StepRes (σ ρ : Type) where
  | next (s : σ)
  | halt (r : ρ)

/-- One iteration of the `execute_compiled` loop at operation `op`
(the numeric Display inside messages is abstracted by `toString`). -/
def full_apply (root : Jval) (ops : List ValidationOp) (op : ValidationOp)
    (s : FullState) : StepRes FullState (List ValidationIssue) :=
  match op with
  | .checkType expected =>
    match get_current_value root s.context_stack with
    | some v =>
      if check_type_tag v expected then .next { s with ip := s.ip + 1 }
      else .next { s with issues := s.issues ++ [ValidationIssue.with_path ("Expected type " ++ expected.name ++ ", got " ++ json_type_name v) s.path_stack.reverse], ip := s.ip + 1 }
    | none => .next { s with ip := s.ip + 1 }
  | .checkMinimum min =>
    match get_current_value root s.context_stack with
    | some v =>
      match v.as_f64 with
      | some n =>
        if n < min then .next { s with issues := s.issues ++ [ValidationIssue.with_path ("Value " ++ toString n ++ " is less than minimum " ++ toString min) s.path_stack.reverse], ip := s.ip + 1 }
        else .next { s with ip := s.ip + 1 }
      | none => .next { s with ip := s.ip + 1 }
    | none => .next { s with ip := s.ip + 1 }
  | .checkMaximum max =>
    match get_current_value root s.context_stack with
    | some v =>
      match v.as_f64 with
      | some n =>
        if n > max then .next { s with issues := s.issues ++ [ValidationIssue.with_path ("Value " ++ toString n ++ " is greater than maximum " ++ toString max) s.path_stack.reverse], ip := s.ip + 1 }
        else .next { s with ip := s.ip + 1 }
      | none => .next { s with ip := s.ip + 1 }
    | none => .next { s with ip := s.ip + 1 }
  | .checkExclusiveMinimum min =>
    match get_current_value root s.context_stack with
    | some v =>
      match v.as_f64 with
      | some n =>
        if n ≤ min then .next { s with issues := s.issues ++ [ValidationIssue.with_path ("Value " ++ toString n ++ " must be greater than " ++ toString min) s.path_stack.reverse], ip := s.ip + 1 }
        else .next { s with ip := s.ip + 1 }
      | none => .next { s with ip := s.ip + 1 }
    | none => .next { s with ip := s.ip + 1 }
  | .checkExclusiveMaximum max =>
    match get_current_value root s.context_stack with
    | some v =>
      match v.as_f64 with
      | some n =>
        if n ≥ max then .next { s with issues := s.issues ++ [ValidationIssue.with_path ("Value " ++ toString n ++ " must be less than " ++ toString max) s.path_stack.reverse], ip := s.ip + 1 }
        else .next { s with ip := s.ip + 1 }
      | none => .next { s with ip := s.ip + 1 }
    | none => .next { s with ip := s.ip + 1 }
  | .checkMinLength min =>
    match get_current_value root s.context_stack with
    | some v =>
      match v.as_str with
      | some st =>
        if st.length < min then .next { s with issues := s.issues ++ [ValidationIssue.with_path ("String length " ++ toString st.length ++ " is less than minimum " ++ toString min) s.path_stack.reverse], ip := s.ip + 1 }
        else .next { s with ip := s.ip + 1 }
      | none => .next { s with ip := s.ip + 1 }
    | none => .next { s with ip := s.ip + 1 }
  | .checkMaxLength max =>
    match get_current_value root s.context_stack with
    | some v =>
      match v.as_str with
      | some st =>
        if st.length > max then .next { s with issues := s.issues ++ [ValidationIssue.with_path ("String length " ++ toString st.length ++ " is greater than maximum " ++ toString max) s.path_stack.reverse], ip := s.ip + 1 }
        else .next { s with ip := s.ip + 1 }
      | none => .next { s with ip := s.ip + 1 }
    | none => .next { s with ip := s.ip + 1 }
  | .checkMinItems min =>
    match get_current_value root s.context_stack with
    | some v =>
      match v.as_array with
      | some arr =>
        if arr.length < min then .next { s with issues := s.issues ++ [ValidationIssue.with_path ("Array has " ++ toString arr.length ++ " items, minimum is " ++ toString min) s.path_stack.reverse], ip := s.ip + 1 }
        else .next { s with ip := s.ip + 1 }
      | none => .next { s with ip := s.ip + 1 }
    | none => .next { s with ip := s.ip + 1 }
  | .checkMaxItems max =>
    match get_current_value root s.context_stack with
    | some v =>
      match v.as_array with
      | some arr =>
        if arr.length > max then .next { s with issues := s.issues ++ [ValidationIssue.with_path ("Array has " ++ toString arr.length ++ " items, maximum is " ++ toString max) s.path_stack.reverse], ip := s.ip + 1 }
        else .next { s with ip := s.ip + 1 }
      | none => .next { s with ip := s.ip + 1 }
    | none => .next { s with ip := s.ip + 1 }
  | .enterObject =>
    .next { s with context_stack := ExecutionContext.object none :: s.context_stack, ip := s.ip + 1 }
  | .checkProperty key required =>
    let cleaned : List PathSegment × List ExecutionContext :=
      match s.context_stack with
      | ExecutionContext.object (some _) :: rest =>
        (s.path_stack.tail, ExecutionContext.object none :: rest)
      | _ => (s.path_stack, s.context_stack)
    match get_current_value root cleaned.2 with
    | some obj_value =>
      match obj_value.as_object with
      | some obj =>
        if (List.lookup key obj).isSome then
          let ctx2 : List ExecutionContext :=
            match cleaned.2 with
            | ExecutionContext.object _ :: rest =>
              ExecutionContext.object (some key) :: rest
            | other => other
          .next { s with path_stack := PathSegment.key key :: cleaned.1, context_stack := ctx2, ip := s.ip + 1 }
        else if required then
          .next { s with issues := s.issues ++ [ValidationIssue.with_path ("Missing required property '" ++ key ++ "'") cleaned.1.reverse], path_stack := cleaned.1, context_stack := cleaned.2, ip := skip_scan ops (s.ip + 1) 0 + 1 }
        else
          .next { s with path_stack := cleaned.1, context_stack := cleaned.2, ip := skip_scan ops (s.ip + 1) 0 + 1 }
      | none =>
        .next { s with path_stack := cleaned.1, context_stack := cleaned.2, ip := s.ip + 1 }
    | none =>
      .next { s with path_stack := cleaned.1, context_stack := cleaned.2, ip := s.ip + 1 }
  | .exitObject =>
    let path1 : List PathSegment :=
      match s.context_stack with
      | ExecutionContext.object (some _) :: _ => s.path_stack.tail
      | _ => s.path_stack
    .next { s with path_stack := path1, context_stack := s.context_stack.tail, ip := s.ip + 1 }
  | .enterArray =>
    .next { s with context_stack := ExecutionContext.array 0 (s.ip + 1) :: s.context_stack, ip := s.ip + 1 }
  | .checkArrayItems =>
    let info : Nat × Bool :=
      match s.context_stack with
      | ExecutionContext.array current_index _ :: _ =>
        let arr_len : Nat :=
          match get_current_value root s.context_stack.tail with
          | some v => match v.as_array with | some a => a.length | none => 0
          | none => 0
        (current_index, decide (current_index < arr_len))
      | _ => (0, false)
    let path1 : List PathSegment :=
      if 0 < info.1 then s.path_stack.tail else s.path_stack
    if info.2 then
      .next { s with path_stack := PathSegment.index info.1 :: path1, ip := s.ip + 1 }
    else
      .next { s with path_stack := path1, ip := skip_arr ops (s.ip + 1) 1 + 1 }
  | .exitArray =>
    match s.context_stack with
    | ExecutionContext.array current_index items_start :: rest =>
      let arr_len : Nat :=
        match get_current_value root rest with
        | some v => match v.as_array with | some a => a.length | none => 0
        | none => 0
      let path1 : List PathSegment :=
        if current_index < arr_len then s.path_stack.tail else s.path_stack
      if current_index + 1 < arr_len then
        .next { s with path_stack := path1, context_stack := ExecutionContext.array (current_index + 1) items_start :: rest, ip := items_start - 1 + 1 }
      else
        .next { s with path_stack := path1, context_stack := rest, ip := s.ip + 1 }
    | _ => .next { s with context_stack := s.context_stack.tail, ip := s.ip + 1 }
  | .done => .halt s.issues

/-- One step of `execute_compiled`: dispatch on `ops[ip]`, or return the
accumulated issues when the instruction pointer leaves the sequence. -/
def execute_step (root : Jval) (ops : List ValidationOp) (s : FullState) :
    StepRes FullState (List ValidationIssue) :=
  if h : s.ip < ops.length then full_apply root ops ops[s.ip] s
  else .halt s.issues

/-- One iteration of the `execute_compiled_bool` loop at operation `op`.
Unlike the full engine it short-circuits on the first failed check, keeps
no paths or issues, and measures string length in UTF-8 bytes. -/
def bool_apply (root : Jval) (ops : List ValidationOp) (op : ValidationOp)
    (t : BoolState) : StepRes BoolState Bool :=
  match op with
  | .checkType expected =>
    match get_current_value root t.context_stack with
    | some v =>
      if check_type_tag v expected then .next { t with ip := t.ip + 1 }
      else .halt false
    | none => .next { t with ip := t.ip + 1 }
  | .checkMinimum min =>
    match get_current_value root t.context_stack with
    | some v =>
      match v.as_f64 with
      | some n => if n < min then .halt false else .next { t with ip := t.ip + 1 }
      | none => .next { t with ip := t.ip + 1 }
    | none => .next { t with ip := t.ip + 1 }
  | .checkMaximum max =>
    match get_current_value root t.context_stack with
    | some v =>
      match v.as_f64 with
      | some n => if n > max then .halt false else .next { t with ip := t.ip + 1 }
      | none => .next { t with ip := t.ip + 1 }
    | none => .next { t with ip := t.ip + 1 }
  | .checkExclusiveMinimum min =>
    match get_current_value root t.context_stack with
    | some v =>
      match v.as_f64 with
      | some n => if n ≤ min then .halt false else .next { t with ip := t.ip + 1 }
      | none => .next { t with ip := t.ip + 1 }
    | none => .next { t with ip := t.ip + 1 }
  | .checkExclusiveMaximum max =>
    match get_current_value root t.context_stack with
    | some v =>
      match v.as_f64 with
      | some n => if n ≥ max then .halt false else .next { t with ip := t.ip + 1 }
      | none => .next { t with ip := t.ip + 1 }
    | none => .next { t with ip := t.ip + 1 }
  | .checkMinLength min =>
    match get_current_value root t.context_stack with
    | some v =>
      match v.as_str with
      | some st =>
        if st.utf8ByteSize < min then .halt false else .next { t with ip := t.ip + 1 }
      | none => .next { t with ip := t.ip + 1 }
    | none => .next { t with ip := t.ip + 1 }
  | .checkMaxLength max =>
    match get_current_value root t.context_stack with
    | some v =>
      match v.as_str with
      | some st =>
        if st.utf8ByteSize > max then .halt false else .next { t with ip := t.ip + 1 }
      | none => .next { t with ip := t.ip + 1 }
    | none => .next { t with ip := t.ip + 1 }
  | .checkMinItems min =>
    match get_current_value root t.context_stack with
    | some v =>
      match v.as_array with
      | some arr =>
        if arr.length < min then .halt false else .next { t with ip := t.ip + 1 }
      | none => .next { t with ip := t.ip + 1 }
    | none => .next { t with ip := t.ip + 1 }
  | .checkMaxItems max =>
    match get_current_value root t.context_stack with
    | some v =>
      match v.as_array with
      | some arr =>
        if arr.length > max then .halt false else .next { t with ip := t.ip + 1 }
      | none => .next { t with ip := t.ip + 1 }
    | none => .next { t with ip := t.ip + 1 }
  | .enterObject =>
    .next { t with context_stack := ExecutionContext.object none :: t.context_stack, ip := t.ip + 1 }
  | .checkProperty key required =>
    let ctx1 : List ExecutionContext :=
      match t.context_stack with
      | ExecutionContext.object _ :: rest => ExecutionContext.object none :: rest
      | other => other
    match get_current_value root ctx1 with
    | some obj_value =>
      match obj_value.as_object with
      | some obj =>
        if (List.lookup key obj).isSome then
          let ctx2 : List ExecutionContext :=
            match ctx1 with
            | ExecutionContext.object _ :: rest =>
              ExecutionContext.object (some key) :: rest
            | other => other
          .next { context_stack := ctx2, ip := t.ip + 1 }
        else if required then .halt false
        else .next { context_stack := ctx1, ip := skip_scan ops (t.ip + 1) 0 + 1 }
      | none => .next { context_stack := ctx1, ip := t.ip + 1 }
    | none => .next { context_stack := ctx1, ip := t.ip + 1 }
  | .exitObject =>
    .next { t with context_stack := t.context_stack.tail, ip := t.ip + 1 }
  | .enterArray =>
    .next { t with context_stack := ExecutionContext.array 0 (t.ip + 1) :: t.context_stack, ip := t.ip + 1 }
  | .checkArrayItems =>
    let arr_len : Nat :=
      match get_current_value root t.context_stack.tail with
      | some v => match v.as_array with | some a => a.length | none => 0
      | none => 0
    let current_idx : Nat :=
      match t.context_stack with
      | ExecutionContext.array current_index _ :: _ => current_index
      | _ => 0
    if current_idx ≥ arr_len then
      .next { t with ip := skip_arr ops (t.ip + 1) 1 + 1 }
    else
      .next { t with ip := t.ip + 1 }
  | .exitArray =>
    match t.context_stack with
    | ExecutionContext.array current_index items_start :: rest =>
      let arr_len : Nat :=
        match get_current_value root rest with
        | some v => match v.as_array with | some a => a.length | none => 0
        | none => 0
      if current_index + 1 < arr_len then
        .next { context_stack := ExecutionContext.array (current_index + 1) items_start :: rest, ip := items_start - 1 + 1 }
      else
        .next { context_stack := rest, ip := t.ip + 1 }
    | _ => .next { t with context_stack := t.context_stack.tail, ip := t.ip + 1 }
  | .done => .halt true

/-- One step of `execute_compiled_bool`; the loop running off the end of the
sequence returns `true` just as reaching `Done` does. -/
def execute_bool_step (root : Jval) (ops : List ValidationOp) (t : BoolState) :
    StepRes BoolState Bool :=
  if h : t.ip < ops.length then bool_apply root ops ops[t.ip] t
  else .halt true

/-- Iterate a step function under fuel. -/
def run {σ ρ : Type} (step : σ → StepRes σ ρ) : Nat → σ → Option ρ
  | 0, _ => none
  | fuel + 1, s =>
    match step s with
    | .halt r => some r
    | .next s' => run step fuel s'

/-- `execute_compiled`: runs the full-diagnostic engine; on termination
within `fuel` steps it returns `Success(value)` when no issue was recorded
and `Failure(issues)` otherwise. -/
def execute_compiled (value : Jval) (compiled : CompiledSchema) (fuel : Nat) :
    Option (ValidationResult Jval) :=
  (run (execute_step value compiled.ops) fuel
      { issues := [], path_stack := [], context_stack := [], ip := 0 }).map
    (fun issues =>
      if issues.isEmpty then ValidationResult.success value
      else ValidationResult.failure issues)

/-- `execute_compiled_bool`: runs the boolean fast-path engine. -/
def execute_compiled_bool (value : Jval) (compiled : CompiledSchema) (fuel : Nat) :
    Option Bool :=
  run (execute_bool_step value compiled.ops) fuel { context_stack := [], ip := 0 }

/-- `RegisteredSchema`: stored document plus compiled operations. -/
structure RegisteredSchema where
  schema : Jval
  compiled : CompiledSchema

/-- `SchemaRegistry`: name-keyed store (a `HashMap`, modelled as an
association list with unique keys maintained by `insert`). -/
structure SchemaRegistry where
  schemas : List (String × RegisteredSchema)

/-- `SchemaRegistry::new`. -/
def SchemaRegistry.new : SchemaRegistry := { schemas := [] }

/-- `HashMap::insert`: replaces any existing binding of the key. -/
def hashmap_insert (m : List (String × RegisteredSchema)) (k : String)
    (v : RegisteredSchema) : List (String × RegisteredSchema) :=
  (k, v) :: m.filter (fun e => ¬(e.1 = k))

/-- `SchemaRegistry::register` (after the JS-boundary deserialization, which
is outside this model): compile at registration time and insert. -/
def SchemaRegistry.register (r : SchemaRegistry) (name : String) (schema : Jval) :
    SchemaRegistry :=
  { schemas := hashmap_insert r.schemas name { schema := schema, compiled := compile_schema schema } }

/-- `SchemaRegistry::unregister`: the updated registry and whether an entry
was removed. -/
def SchemaRegistry.unregister (r : SchemaRegistry) (name : String) :
    SchemaRegistry × Bool :=
  ({ schemas := r.schemas.filter (fun e => ¬(e.1 = name)) },
    (List.lookup name r.schemas).isSome)

/-- `SchemaRegistry::has_schema`. -/
def SchemaRegistry.has_schema (r : SchemaRegistry) (name : String) : Bool :=
  (List.lookup name r.schemas).isSome

/-- `SchemaRegistry::validate`: resolve the entry (error if absent) and run
the full-diagnostic engine against the stored compiled schema. -/
def SchemaRegistry.validate (r : SchemaRegistry) (name : String) (value : Jval)
    (fuel : Nat) : Except String (Option (ValidationResult Jval)) :=
  match List.lookup name r.schemas with
  | none => Except.error ("Schema '" ++ name ++ "' not found in registry")
  | some registered => Except.ok (execute_compiled value registered.compiled fuel)

/-- `SchemaRegistry::validate_fast`: resolve the entry (error if absent) and
run the boolean engine against the stored compiled schema. -/
def SchemaRegistry.validate_fast (r : SchemaRegistry) (name : String) (value : Jval)
    (fuel : Nat) : Except String (Option Bool) :=
  match List.lookup name r.schemas with
  | none => Except.error ("Schema '" ++ name ++ "' not found in registry")
  | some registered => Except.ok (execute_compiled_bool value registered.compiled fuel)

/-- A registry mutation, for stating reachability of registry states. -/
inductive RegistryOp where
  | register (name : String) (schema : Jval)
  | unregister (name : String)

/-- Apply one registry mutation. -/
def SchemaRegistry.apply_op (r : SchemaRegistry) : RegistryOp → SchemaRegistry
  | RegistryOp.register n s => r.register n s
  | RegistryOp.unregister n => (r.unregister n).1

/-- The scalar check operations: everything the compiler can emit outside
the object/array block structure and the final `Done`. -/
def is_plain_check : ValidationOp → Bool
  | .checkType _ => true
  | .checkMinimum _ => true
  | .checkMaximum _ => true
  | .checkExclusiveMinimum _ => true
  | .checkExclusiveMaximum _ => true
  | .checkMinLength _ => true
  | .checkMaxLength _ => true
  | .checkMinItems _ => true
  | .checkMaxItems _ => true
  | _ => false

/-- The grammar of operation sequences the compiler can emit.
`Emits false l` says `l` is a possible output of `compile_schema_recursive`;
`Emits true l` says `l` is a possible output of the properties loop
(`compile_props`): a sequence of `CheckProperty` headers each followed by a
compiled sub-schema. -/
inductive Emits : Bool → List ValidationOp → Prop where
  | nil : Emits false []
  | plain (op : ValidationOp) (rest : List ValidationOp) :
      is_plain_check op = true → Emits false rest → Emits false (op :: rest)
  | objBlock (inner rest : List ValidationOp) :
      Emits true inner → Emits false rest →
      Emits false (ValidationOp.enterObject :: (inner ++ ValidationOp.exitObject :: rest))
  | arrBlock (inner rest : List ValidationOp) :
      Emits false inner → Emits false rest →
      Emits false (ValidationOp.enterArray :: ValidationOp.checkArrayItems ::
        (inner ++ ValidationOp.exitArray :: rest))
  | pnil : Emits true []
  | pcons (key : String) (req : Bool) (inner rest : List ValidationOp) :
      Emits false inner → Emits true rest →
      Emits true (ValidationOp.checkProperty key req :: (inner ++ rest))

theorem emits_append {xs ys : List ValidationOp}
    (hx : Emits false xs) (hy : Emits false ys) : Emits false (xs ++ ys) := by
  generalize hb : false = b at hx
  induction hx with
  | nil => simpa using hy
  | plain op rest hop _ ih =>
    simpa using Emits.plain op (rest ++ ys) hop (ih hb)
  | objBlock inner rest hinner hrest ihinner ihrest =>
    have h2 := Emits.objBlock inner (rest ++ ys) hinner (ihrest rfl)
    simpa [List.append_assoc] using h2
  | arrBlock inner rest hinner hrest ihinner ihrest =>
    have h2 := Emits.arrBlock inner (rest ++ ys) hinner (ihrest rfl)
    simpa [List.append_assoc] using h2
  | pnil => exact absurd hb (by simp)
  | pcons key req inner rest _ _ _ _ => exact absurd hb (by simp)

theorem emits_single (op : ValidationOp) (h : is_plain_check op = true) :
    Emits false [op] :=
  Emits.plain op [] h Emits.nil

theorem emits_compile_strong (n : Nat) :
    (∀ schema : Jval, sizeOf schema ≤ n →
      Emits false (compile_schema_recursive schema)) ∧
    (∀ (required : List String) (properties : List (String × Jval)),
      sizeOf properties ≤ n → Emits true (compile_props required properties)) := by
  induction n using Nat.strong_induction_on with
  | _ n ih =>
    constructor
    · intro schema hs
      match schema with
      | .null | .bool _ | .num _ | .str _ | .arr _ =>
        simp only [compile_schema_recursive]
        exact Emits.nil
      | .obj schema_obj =>
        have hsz : sizeOf schema_obj < n + 1 := by
          have : sizeOf (Jval.obj schema_obj) ≤ n := hs
          simp at this
          omega
        simp only [compile_schema_recursive]
        repeat apply emits_append
        · split
          · split
            · split
              · exact emits_single _ rfl
              · exact Emits.nil
            · exact Emits.nil
          · exact Emits.nil
        · split
          · exact emits_single _ rfl
          · exact Emits.nil
        · split
          · exact emits_single _ rfl
          · exact Emits.nil
        · split
          · exact emits_single _ rfl
          · exact Emits.nil
        · split
          · exact emits_single _ rfl
          · exact Emits.nil
        · split
          · split
            · exact emits_single _ rfl
            · exact Emits.nil
          · exact Emits.nil
        · split
          · split
            · exact emits_single _ rfl
            · exact Emits.nil
          · exact Emits.nil
        · split
          · next properties hp =>
            have h1 := sizeOf_lookup_lt hp
            have h2 : sizeOf properties < n := by
              have : sizeOf (Jval.obj properties) < sizeOf schema_obj := h1
              simp at this
              have hn : sizeOf schema_obj ≤ n := by omega
              omega
            have h3 := (ih (sizeOf properties) h2).2
            exact Emits.objBlock _ [] (h3 _ _ le_rfl) Emits.nil
          · exact Emits.nil
        · split
          · split
            · exact emits_single _ rfl
            · exact Emits.nil
          · exact Emits.nil
        · split
          · split
            · exact emits_single _ rfl
            · exact Emits.nil
          · exact Emits.nil
        · split
          · next items_schema hi =>
            have h1 := sizeOf_lookup_lt hi
            have h2 : sizeOf items_schema < n := by omega
            have h3 := (ih (sizeOf items_schema) h2).1
            exact Emits.arrBlock _ [] (h3 _ le_rfl) Emits.nil
          · exact Emits.nil
    · intro required properties hle
      match properties with
      | [] =>
        simp only [compile_props]
        exact Emits.pnil
      | (key, prop_schema) :: rest =>
        have hsz : sizeOf prop_schema < n ∧ sizeOf rest < n := by
          have : sizeOf ((key, prop_schema) :: rest) ≤ n := hle
          simp at this
          constructor <;> omega
        simp only [compile_props]
        exact Emits.pcons key (required.contains key) _ _
          ((ih (sizeOf prop_schema) hsz.1).1 _ le_rfl)
          ((ih (sizeOf rest) hsz.2).2 _ _ le_rfl)

/-- Every output of the recursive compiler pass conforms to the grammar. -/
theorem emits_compile (schema : Jval) :
    Emits false (compile_schema_recursive schema) :=
  (emits_compile_strong (sizeOf schema)).1 schema le_rfl

/-- Bracket checker: consumes the sequence tracking a stack of open
brackets (`true` = object, `false` = array); `none` on any mismatch. -/
def balAux : List ValidationOp → List Bool → Option (List Bool)
  | [], stk => some stk
  | op :: rest, stk =>
    match op with
    | .enterObject => balAux rest (true :: stk)
    | .enterArray => balAux rest (false :: stk)
    | .exitObject =>
      match stk with
      | true :: stk' => balAux rest stk'
      | _ => none
    | .exitArray =>
      match stk with
      | false :: stk' => balAux rest stk'
      | _ => none
    | _ => balAux rest stk

theorem balAux_append (xs ys : List ValidationOp) (stk : List Bool) :
    balAux (xs ++ ys) stk = (balAux xs stk).bind (fun stk2 => balAux ys stk2) := by
  induction xs generalizing stk with
  | nil => simp [balAux]
  | cons op rest ih =>
    cases op <;> simp only [List.cons_append, balAux] <;>
      first
      | exact ih _
      | (cases stk with
         | nil => simp
         | cons b stk' => cases b <;> simp [ih])

/-- Every grammar-conformant sequence is bracket-neutral. -/
theorem emits_bal {f : Bool} {l : List ValidationOp} (h : Emits f l) :
    ∀ stk : List Bool, balAux l stk = some stk := by
  induction h with
  | nil => intro stk; rfl
  | plain op rest hop _ ih =>
    intro stk
    cases op <;> simp [is_plain_check] at hop <;> simp [balAux, ih]
  | objBlock inner rest _ _ ihinner ihrest =>
    intro stk
    simp [balAux, balAux_append, ihinner, ihrest]
  | arrBlock inner rest _ _ ihinner ihrest =>
    intro stk
    simp [balAux, balAux_append, ihinner, ihrest]
  | pnil => intro stk; rfl
  | pcons key req inner rest _ _ ihinner ihrest =>
    intro stk
    simp [balAux, balAux_append, ihinner, ihrest]

/-- No grammar-conformant sequence contains `Done`. -/
theorem emits_no_done {f : Bool} {l : List ValidationOp} (h : Emits f l) :
    ValidationOp.done ∉ l := by
  induction h with
  | nil => simp
  | plain op rest hop _ ih =>
    intro hmem
    rcases List.mem_cons.mp hmem with heq | hmem2
    · subst heq; simp [is_plain_check] at hop
    · exact ih hmem2
  | objBlock inner rest _ _ ihinner ihrest =>
    intro hmem
    simp only [List.mem_cons, List.mem_append] at hmem
    rcases hmem with h1 | h2 | h3 | h4
    · exact ValidationOp.noConfusion h1
    · exact ihinner h2
    · exact ValidationOp.noConfusion h3
    · exact ihrest h4
  | arrBlock inner rest _ _ ihinner ihrest =>
    intro hmem
    simp only [List.mem_cons, List.mem_append] at hmem
    rcases hmem with h1 | h1 | h2 | h3 | h4
    · exact ValidationOp.noConfusion h1
    · exact ValidationOp.noConfusion h1
    · exact ihinner h2
    · exact ValidationOp.noConfusion h3
    · exact ihrest h4
  | pnil => simp
  | pcons key req inner rest _ _ ihinner ihrest =>
    intro hmem
    simp only [List.mem_cons, List.mem_append] at hmem
    rcases hmem with h1 | h2 | h3
    · exact ValidationOp.noConfusion h1
    · exact ihinner h2
    · exact ihrest h3

/-- Scanner checking that every `CheckArrayItems` is immediately preceded by
an `EnterArray`; the flag records whether the previous operation was
`EnterArray`. -/
def cai_ok_from : Bool → List ValidationOp → Bool
  | _, [] => true
  | prev, op :: rest =>
    match op with
    | .checkArrayItems => prev && cai_ok_from false rest
    | .enterArray => cai_ok_from true rest
    | _ => cai_ok_from false rest

/-- Whether the last operation of `xs` is `EnterArray` (`b` if `xs` empty). -/
def last_enter : Bool → List ValidationOp → Bool
  | b, [] => b
  | _, op :: rest =>
    last_enter (match op with | ValidationOp.enterArray => true | _ => false) rest

theorem cai_ok_from_append (xs : List ValidationOp) (b : Bool) (ys : List ValidationOp) :
    cai_ok_from b (xs ++ ys) = (cai_ok_from b xs && cai_ok_from (last_enter b xs) ys) := by
  induction xs generalizing b with
  | nil => simp [cai_ok_from, last_enter]
  | cons op rest ih =>
    cases op <;>
      simp [cai_ok_from, last_enter, ih, Bool.and_assoc]

/-- Every grammar-conformant sequence passes the `CheckArrayItems` scanner,
whatever the incoming flag. -/
theorem emits_cai {f : Bool} {l : List ValidationOp} (h : Emits f l) :
    ∀ b : Bool, cai_ok_from b l = true := by
  induction h with
  | nil => intro b; rfl
  | plain op rest hop _ ih =>
    intro b
    cases op <;> simp [is_plain_check] at hop <;> simp [cai_ok_from, ih]
  | objBlock inner rest _ _ ihinner ihrest =>
    intro b
    simp [cai_ok_from, cai_ok_from_append, ihinner, ihrest]
  | arrBlock inner rest _ _ ihinner ihrest =>
    intro b
    simp [cai_ok_from, cai_ok_from_append, ihinner, ihrest]
  | pnil => intro b; rfl
  | pcons key req inner rest _ _ ihinner ihrest =>
    intro b
    simp [cai_ok_from, cai_ok_from_append, ihinner, ihrest]

theorem cai_ok_from_succ {l : List ValidationOp} :
    ∀ (b : Bool) (j : Nat), cai_ok_from b l = true →
      l[j + 1]? = some ValidationOp.checkArrayItems →
      l[j]? = some ValidationOp.enterArray := by
  induction l with
  | nil => intro b j _ hj; simp at hj
  | cons op rest ih =>
    intro b j hok hj
    match j with
    | 0 =>
      simp only [List.getElem?_cons_succ] at hj
      cases rest with
      | nil => simp at hj
      | cons op2 rest2 =>
        simp only [List.getElem?_cons_zero, Option.some.injEq] at hj
        subst hj
        cases op <;> simp [cai_ok_from] at hok <;> simp
    | j' + 1 =>
      simp only [List.getElem?_cons_succ] at hj ⊢
      cases op <;> simp only [cai_ok_from, Bool.and_eq_true] at hok <;>
        first
        | exact ih _ j' hok hj
        | exact ih _ j' hok.2 hj

theorem cai_ok_from_zero {l : List ValidationOp}
    (h : cai_ok_from false l = true) :
    l[0]? ≠ some ValidationOp.checkArrayItems := by
  intro hc
  cases l with
  | nil => simp at hc
  | cons op rest =>
    simp only [List.getElem?_cons_zero, Option.some.injEq] at hc
    subst hc
    simp [cai_ok_from] at h

/-- Scanner checking that every `EnterArray` is immediately followed by a
`CheckArrayItems`. -/
def ea_ok : List ValidationOp → Bool
  | [] => true
  | op :: rest =>
    match op with
    | .enterArray =>
      (match rest with
       | ValidationOp.checkArrayItems :: _ => true
       | _ => false) && ea_ok rest
    | _ => ea_ok rest

theorem emits_ea {f : Bool} {l : List ValidationOp} (h : Emits f l) :
    ∀ ys : List ValidationOp, ea_ok ys = true → ea_ok (l ++ ys) = true := by
  induction h with
  | nil => intro ys hys; simpa using hys
  | plain op rest hop _ ih =>
    intro ys hys
    cases op <;> simp [is_plain_check] at hop <;>
      simpa [ea_ok] using ih ys hys
  | objBlock inner rest _ _ ihinner ihrest =>
    intro ys hys
    have h2 := ihinner (ValidationOp.exitObject :: (rest ++ ys))
      (by simpa [ea_ok] using ihrest ys hys)
    simpa [ea_ok, List.append_assoc] using h2
  | arrBlock inner rest _ _ ihinner ihrest =>
    intro ys hys
    have h2 := ihinner (ValidationOp.exitArray :: (rest ++ ys))
      (by simpa [ea_ok] using ihrest ys hys)
    have h3 : ea_ok (ValidationOp.enterArray :: ValidationOp.checkArrayItems ::
        (inner ++ ValidationOp.exitArray :: rest) ++ ys) = true := by
      simpa [ea_ok, List.append_assoc] using h2
    simpa [List.append_assoc] using h3
  | pnil => intro ys hys; simpa using hys
  | pcons key req inner rest _ _ ihinner ihrest =>
    intro ys hys
    have h2 := ihinner (rest ++ ys) (ihrest ys hys)
    simpa [ea_ok, List.append_assoc] using h2

theorem ea_ok_get {l : List ValidationOp} :
    ∀ j : Nat, ea_ok l = true → l[j]? = some ValidationOp.enterArray →
      l[j + 1]? = some ValidationOp.checkArrayItems := by
  induction l with
  | nil => intro j _ hj; simp at hj
  | cons op rest ih =>
    intro j hok hj
    match j with
    | 0 =>
      simp only [List.getElem?_cons_zero, Option.some.injEq] at hj
      subst hj
      simp only [ea_ok, Bool.and_eq_true] at hok
      cases rest with
      | nil => simp at hok
      | cons op2 rest2 =>
        cases op2 <;> simp at hok <;> simp
    | j' + 1 =>
      simp only [List.getElem?_cons_succ] at hj ⊢
      cases op <;> simp only [ea_ok, Bool.and_eq_true] at hok <;>
        first
        | exact ih j' hok hj
        | exact ih j' hok.2 hj

/-- Collects the `CheckProperty` operations that occur at bracket-nesting
depth exactly 1 relative to the start of the sequence, i.e. directly
inside the outermost `EnterObject`. -/
def props_at_depth : List ValidationOp → Nat → List (String × Bool)
  | [], _ => []
  | op :: rest, depth =>
    match op with
    | .enterObject => props_at_depth rest (depth + 1)
    | .enterArray => props_at_depth rest (depth + 1)
    | .exitObject => props_at_depth rest (depth - 1)
    | .exitArray => props_at_depth rest (depth - 1)
    | .checkProperty key req =>
      (if depth = 1 then [(key, req)] else []) ++ props_at_depth rest depth
    | _ => props_at_depth rest depth

/-- A grammar-conformant chunk entered at depth at least 1 (at least 2 for a
properties chunk) contributes nothing at depth 1. -/
theorem emits_props_at_depth {f : Bool} {l : List ValidationOp} (h : Emits f l) :
    ∀ (d : Nat) (rest2 : List ValidationOp), 1 ≤ d → (f = true → 2 ≤ d) →
      props_at_depth (l ++ rest2) d = props_at_depth rest2 d := by
  induction h with
  | nil => intro d rest2 _ _; rfl
  | plain op rest hop _ ih =>
    intro d rest2 hd hf
    cases op <;> simp [is_plain_check] at hop <;>
      simpa [props_at_depth] using ih d rest2 hd hf
  | objBlock inner rest _ _ ihinner ihrest =>
    intro d rest2 hd _
    have h1 := ihinner (d + 1) (ValidationOp.exitObject :: (rest ++ rest2))
      (by omega) (by intro _; omega)
    have h2 := ihrest d rest2 hd (by simp)
    have h3 : d + 1 - 1 = d := by omega
    simp only [List.append_eq, List.cons_append, List.append_assoc, props_at_depth] at h1 ⊢
    rw [h1]
    simp only [props_at_depth, h3]
    exact h2
  | arrBlock inner rest _ _ ihinner ihrest =>
    intro d rest2 hd _
    have h1 := ihinner (d + 1) (ValidationOp.exitArray :: (rest ++ rest2))
      (by omega) (by simp)
    have h2 := ihrest d rest2 hd (by simp)
    have h3 : d + 1 - 1 = d := by omega
    simp only [List.append_eq, List.cons_append, List.append_assoc, props_at_depth] at h1 ⊢
    rw [h1]
    simp only [props_at_depth, h3]
    exact h2
  | pnil => intro d rest2 _ _; rfl
  | pcons key req inner rest _ _ ihinner ihrest =>
    intro d rest2 hd hf
    have hd2 : 2 ≤ d := hf rfl
    have h1 := ihinner d (rest ++ rest2) hd (by simp)
    have h2 := ihrest d rest2 hd (by intro _; exact hd2)
    have hne : ¬ d = 1 := by omega
    simp only [List.append_eq, List.cons_append, List.append_assoc, props_at_depth,
      if_neg hne, List.nil_append] at h1 ⊢
    rw [h1]
    exact h2

theorem lookup_filter_none {m : List (String × RegisteredSchema)} {n : String}
    (h : List.lookup n m = none) (p : String × RegisteredSchema → Bool) :
    List.lookup n (m.filter p) = none := by
  induction m with
  | nil => simp
  | cons hd tl ih =>
    obtain ⟨k, v⟩ := hd
    rw [List.lookup] at h
    cases hbe : (n == k) with
    | true => rw [hbe] at h; simp at h
    | false =>
      rw [hbe] at h
      rw [List.filter_cons]
      split
      · rw [List.lookup, hbe]
        exact ih h
      · exact ih h

theorem apply_ops_lookup_none (l : List RegistryOp) :
    ∀ (r : SchemaRegistry) (n : String),
      List.lookup n r.schemas = none →
      (∀ op ∈ l, ∀ s : Jval, op ≠ RegistryOp.register n s) →
      List.lookup n ((l.foldl SchemaRegistry.apply_op r).schemas) = none := by
  induction l with
  | nil => intro r n h _; simpa using h
  | cons op rest ih =>
    intro r n h hops
    rw [List.foldl_cons]
    apply ih
    · cases op with
      | register k s =>
        have hk : ¬(n = k) := by
          intro hkn
          subst hkn
          exact (hops _ (by simp) s) rfl
        have hbe : (n == k) = false := beq_eq_false_iff_ne.mpr hk
        simp only [SchemaRegistry.apply_op, SchemaRegistry.register, hashmap_insert]
        rw [List.lookup, hbe]
        exact lookup_filter_none h _
      | unregister k =>
        simp only [SchemaRegistry.apply_op, SchemaRegistry.unregister]
        exact lookup_filter_none h _
    · intro op2 hmem s
      exact hops op2 (by simp [hmem]) s

/-- C5: for every registry state reachable without ever registering the name
`n`, both `validate` and `validateFast` on `n` return the not-found error,
never a success result. -/
theorem c5_validate_unregistered_name_errors (l : List RegistryOp) (n : String)
    (v : Jval) (fuel : Nat)
    (hnever : ∀ op ∈ l, ∀ s : Jval, op ≠ RegistryOp.register n s) :
    (l.foldl SchemaRegistry.apply_op SchemaRegistry.new).validate n v fuel
        = Except.error ("Schema '" ++ n ++ "' not found in registry")
    ∧ (l.foldl SchemaRegistry.apply_op SchemaRegistry.new).validate_fast n v fuel
        = Except.error ("Schema '" ++ n ++ "' not found in registry") := by
  have h := apply_ops_lookup_none l SchemaRegistry.new n
    (by simp [SchemaRegistry.new]) hnever
  constructor
  · simp [SchemaRegistry.validate, h]
  · simp [SchemaRegistry.validate_fast, h]

/-- C5 witness: after only an unregister operation, `validate` and
`validateFast` of the name report the not-found error. -/
theorem c5_validate_unregistered_name_errors_witness :
    ([RegistryOp.unregister "User"].foldl SchemaRegistry.apply_op
        SchemaRegistry.new).validate "User" Jval.null 5
      = Except.error "Schema 'User' not found in registry"
    ∧ ([RegistryOp.unregister "User"].foldl SchemaRegistry.apply_op
        SchemaRegistry.new).validate_fast "User" Jval.null 5
      = Except.error "Schema 'User' not found in registry" := by
  have h := c5_validate_unregistered_name_errors [RegistryOp.unregister "User"]
    "User" Jval.null 5
    (by intro op hop s; simp at hop; subst hop; simp)
  exact h

/-- C6: registering under an existing name fully replaces the prior entry:
the stored entry is exactly the new document with its fresh compilation,
`validate`/`validateFast` run only against the newly compiled schema, and no
other entry under that name remains in the store. -/
theorem c6_register_replaces (r : SchemaRegistry) (n : String) (s v : Jval)
    (fuel : Nat) :
    List.lookup n (r.register n s).schemas
        = some { schema := s, compiled := compile_schema s }
    ∧ (r.register n s).validate n v fuel
        = Except.ok (execute_compiled v (compile_schema s) fuel)
    ∧ (r.register n s).validate_fast n v fuel
        = Except.ok (execute_compiled_bool v (compile_schema s) fuel)
    ∧ ∀ e ∈ (r.register n s).schemas, e.1 = n →
        e.2 = { schema := s, compiled := compile_schema s } := by
  have hl : List.lookup n (r.register n s).schemas
      = some { schema := s, compiled := compile_schema s } := by
    simp [SchemaRegistry.register, hashmap_insert, List.lookup]
  refine ⟨hl, ?_, ?_, ?_⟩
  · simp [SchemaRegistry.validate, hl]
  · simp [SchemaRegistry.validate_fast, hl]
  · intro e hmem he1
    simp only [SchemaRegistry.register, hashmap_insert, List.mem_cons] at hmem
    rcases hmem with heq | hmem2
    · rw [heq]
    · have h2 := (List.mem_filter.mp hmem2).2
      rw [he1] at h2
      simp at h2

/-- C9: a schema document that is not a JSON object compiles to the single
operation `[Done]`; that compiled schema accepts every input under both
engines, and registering such a document stores it. -/
theorem c9_non_object_schema_accepts_all (S : Jval) (hS : S.as_object = none)
    (v : Jval) (fuel : Nat) (hfuel : 1 ≤ fuel) (r : SchemaRegistry)
    (name : String) :
    compile_schema S = { ops := [ValidationOp.done] }
    ∧ execute_compiled v (compile_schema S) fuel
        = some (ValidationResult.success v)
    ∧ execute_compiled_bool v (compile_schema S) fuel = some true
    ∧ (r.register name S).has_schema name = true := by
  have hrec : compile_schema_recursive S = [] := by
    cases S <;> first
      | (unfold compile_schema_recursive; rfl)
      | (simp [Jval.as_object] at hS)
  have hcs : compile_schema S = { ops := [ValidationOp.done] } := by
    simp [compile_schema, hrec]
  obtain ⟨k, rfl⟩ : ∃ k, fuel = k + 1 := ⟨fuel - 1, by omega⟩
  refine ⟨hcs, ?_, ?_, ?_⟩
  · rw [hcs]; rfl
  · rw [hcs]; rfl
  · simp [SchemaRegistry.register, SchemaRegistry.has_schema, hashmap_insert,
      List.lookup]

/-- C9 witness: the bare string schema `"x"` compiles to `[Done]`, accepts
`null` under both engines, and registers successfully. -/
theorem c9_non_object_schema_accepts_all_witness :
    compile_schema (Jval.str "x") = { ops := [ValidationOp.done] }
    ∧ execute_compiled Jval.null (compile_schema (Jval.str "x")) 1
        = some (ValidationResult.success Jval.null)
    ∧ execute_compiled_bool Jval.null (compile_schema (Jval.str "x")) 1 = some true
    ∧ ((SchemaRegistry.new).register "T" (Jval.str "x")).has_schema "T" = true :=
  c9_non_object_schema_accepts_all (Jval.str "x") rfl Jval.null 1 le_rfl
    SchemaRegistry.new "T"

/-- C4: every compiled sequence is well-formed: it is the recursive pass
followed by exactly one final `Done` (and `Done` occurs nowhere else), the
object/array brackets of the pass are balanced, and every `EnterArray` is
immediately followed by its `CheckArrayItems`. -/
theorem c4_compiled_wellformed (S : Jval) :
    (compile_schema S).ops = compile_schema_recursive S ++ [ValidationOp.done]
    ∧ balAux (compile_schema_recursive S) [] = some []
    ∧ ValidationOp.done ∉ compile_schema_recursive S
    ∧ (compile_schema S).ops.getLast? = some ValidationOp.done
    ∧ ∀ j : Nat, (compile_schema S).ops[j]? = some ValidationOp.enterArray →
        (compile_schema S).ops[j + 1]? = some ValidationOp.checkArrayItems := by
  refine ⟨rfl, emits_bal (emits_compile S) [], emits_no_done (emits_compile S),
    ?_, ?_⟩
  · simp [compile_schema]
  · intro j hj
    simp only [compile_schema] at hj ⊢
    exact ea_ok_get j (emits_ea (emits_compile S) [ValidationOp.done] rfl) hj

/-- C2 counterexample: on the person schema, validating `{"age": 30}` with
the full-diagnostic engine yields a failure whose only issue is the
missing-required-property issue recorded at the object's own path, which is
empty — so no issue's path contains the segment `"name"`, contrary to the
claim. -/
theorem c2_counterexample_missing_required_path_empty :
    execute_compiled (Jval.obj [("age", Jval.num (JNumber.int 30))])
      (compile_schema (Jval.obj
        [("type", Jval.str "object"),
         ("properties", Jval.obj
           [("name", Jval.obj [("type", Jval.str "string")]),
            ("age", Jval.obj [("type", Jval.str "integer")])]),
         ("required", Jval.arr [Jval.str "name"])])) 10
      = some (ValidationResult.failure
          [ValidationIssue.with_path "Missing required property 'name'" []])
    ∧ (execute_compiled (Jval.obj [("age", Jval.num (JNumber.int 30))])
        (compile_schema (Jval.obj
          [("type", Jval.str "object"),
           ("properties", Jval.obj
             [("name", Jval.obj [("type", Jval.str "string")]),
              ("age", Jval.obj [("type", Jval.str "integer")])]),
           ("required", Jval.arr [Jval.str "name"])])) 10).map
        (fun res => res.issues.all
          (fun i => !((i.path.getD []).contains (PathSegment.key "name"))))
      = some true := by
  have hc : compile_schema (Jval.obj
      [("type", Jval.str "object"),
       ("properties", Jval.obj
         [("name", Jval.obj [("type", Jval.str "string")]),
          ("age", Jval.obj [("type", Jval.str "integer")])]),
       ("required", Jval.arr [Jval.str "name"])])
      = { ops := [ValidationOp.checkType TypeTag.object, ValidationOp.enterObject, ValidationOp.checkProperty "name" true, ValidationOp.checkType TypeTag.string, ValidationOp.checkProperty "age" false, ValidationOp.checkType TypeTag.integer, ValidationOp.exitObject, ValidationOp.done] } := by
    simp [compile_schema, compile_schema_recursive, compile_props, List.lookup,
      Jval.as_str, parse_type_tag]
  rw [hc]
  constructor
  · rfl
  · rfl

/-- C2 amended: on the person schema, validating `{"age": 30}` with the
full-diagnostic engine returns a failure containing an issue whose message
names the missing property `"name"` and whose path is the enclosing
object's own path, which is empty here. -/
theorem c2_amended_missing_required_at_object_path :
    execute_compiled (Jval.obj [("age", Jval.num (JNumber.int 30))])
      (compile_schema (Jval.obj
        [("type", Jval.str "object"),
         ("properties", Jval.obj
           [("name", Jval.obj [("type", Jval.str "string")]),
            ("age", Jval.obj [("type", Jval.str "integer")])]),
         ("required", Jval.arr [Jval.str "name"])])) 10
      = some (ValidationResult.failure
          [ValidationIssue.mk "Missing required property 'name'" (some [])]) := by
  have hc : compile_schema (Jval.obj
      [("type", Jval.str "object"),
       ("properties", Jval.obj
         [("name", Jval.obj [("type", Jval.str "string")]),
          ("age", Jval.obj [("type", Jval.str "integer")])]),
       ("required", Jval.arr [Jval.str "name"])])
      = { ops := [ValidationOp.checkType TypeTag.object, ValidationOp.enterObject, ValidationOp.checkProperty "name" true, ValidationOp.checkType TypeTag.string, ValidationOp.checkProperty "age" false, ValidationOp.checkType TypeTag.integer, ValidationOp.exitObject, ValidationOp.done] } := by
    simp [compile_schema, compile_schema_recursive, compile_props, List.lookup,
      Jval.as_str, parse_type_tag]
  rw [hc]
  rfl

/-- C3: compiling the two-property schema with `required = ["a"]` yields, at
the top-level object nesting (bracket depth 1, i.e. directly inside the
outermost `EnterObject`), exactly the two `CheckProperty` operations
`("a", required := true)` and `("b", required := false)`, in order, for
arbitrary property sub-schemas. -/
theorem c3_top_level_check_properties (Sa Sb : Jval) :
    props_at_depth (compile_schema (Jval.obj
      [("type", Jval.str "object"),
       ("properties", Jval.obj [("a", Sa), ("b", Sb)]),
       ("required", Jval.arr [Jval.str "a"])])).ops 0
      = [("a", true), ("b", false)] := by
  have hops : (compile_schema (Jval.obj
      [("type", Jval.str "object"),
       ("properties", Jval.obj [("a", Sa), ("b", Sb)]),
       ("required", Jval.arr [Jval.str "a"])])).ops
      = ValidationOp.checkType TypeTag.object :: ValidationOp.enterObject ::
          ValidationOp.checkProperty "a" true ::
          (compile_schema_recursive Sa ++ (ValidationOp.checkProperty "b" false ::
            (compile_schema_recursive Sb ++
              [ValidationOp.exitObject, ValidationOp.done]))) := by
    simp [compile_schema, compile_schema_recursive, compile_props, List.lookup,
      Jval.as_str, parse_type_tag]
  rw [hops]
  simp only [props_at_depth, Nat.zero_add, if_pos]
  rw [emits_props_at_depth (emits_compile Sa) 1 _ le_rfl (by simp)]
  simp only [props_at_depth, if_pos]
  rw [emits_props_at_depth (emits_compile Sb) 1 _ le_rfl (by simp)]
  rfl

theorem execute_step_eq_apply {root : Jval} {ops : List ValidationOp}
    {s : FullState} {op : ValidationOp} (hop : ops[s.ip]? = some op) :
    execute_step root ops s = full_apply root ops op s := by
  have hlt : s.ip < ops.length := by
    by_contra hge
    rw [List.getElem?_eq_none (by omega)] at hop
    exact Option.noConfusion hop
  have hget : ops[s.ip] = op := by
    rw [List.getElem?_eq_getElem hlt] at hop
    exact Option.some.inj hop
  unfold execute_step
  rw [dif_pos hlt, hget]

theorem execute_bool_step_eq_apply {root : Jval} {ops : List ValidationOp}
    {t : BoolState} {op : ValidationOp} (hop : ops[t.ip]? = some op) :
    execute_bool_step root ops t = bool_apply root ops op t := by
  have hlt : t.ip < ops.length := by
    by_contra hge
    rw [List.getElem?_eq_none (by omega)] at hop
    exact Option.noConfusion hop
  have hget : ops[t.ip] = op := by
    rw [List.getElem?_eq_getElem hlt] at hop
    exact Option.some.inj hop
  unfold execute_bool_step
  rw [dif_pos hlt, hget]

/-
`asciiOnly v` holds when every string occurring anywhere in `v` consists of
single-byte (ASCII) characters, i.e. its UTF-8 byte length equals its
character count.  This is the precondition under which the two engines'
string-length checks coincide.
-/
mutual

/-- Every string in the value is measured identically in bytes and chars. -/
def asciiOnly : Jval → Bool
  | .null => true
  | .bool _ => true
  | .num _ => true
  | .str s => s.utf8ByteSize == s.length
  | .arr items => asciiOnlyList items
  | .obj fields => asciiOnlyFields fields

/-- `asciiOnly` over a list of values. -/
def asciiOnlyList : List Jval → Bool
  | [] => true
  | v :: rest => asciiOnly v && asciiOnlyList rest

/-- `asciiOnly` over object fields. -/
def asciiOnlyFields : List (String × Jval) → Bool
  | [] => true
  | (_, v) :: rest => asciiOnly v && asciiOnlyFields rest

end

theorem ascii_lookup {fields : List (String × Jval)} {k : String} {w : Jval}
    (hf : asciiOnlyFields fields = true) (hl : List.lookup k fields = some w) :
    asciiOnly w = true := by
  induction fields with
  | nil => simp [List.lookup] at hl
  | cons hd tl ih =>
    obtain ⟨a, b⟩ := hd
    rw [List.lookup] at hl
    rw [asciiOnlyFields, Bool.and_eq_true] at hf
    cases hbe : (k == a) with
    | false =>
      rw [hbe] at hl
      exact ih hf.2 hl
    | true =>
      rw [hbe] at hl
      simp only [Option.some.injEq] at hl
      subst hl
      exact hf.1

theorem ascii_getElem {items : List Jval} {i : Nat} {w : Jval}
    (hl : asciiOnlyList items = true) (hg : items[i]? = some w) :
    asciiOnly w = true := by
  induction items generalizing i with
  | nil => simp at hg
  | cons hd tl ih =>
    rw [asciiOnlyList, Bool.and_eq_true] at hl
    match i with
    | 0 =>
      simp only [List.getElem?_cons_zero, Option.some.injEq] at hg
      subst hg
      exact hl.1
    | i' + 1 =>
      simp only [List.getElem?_cons_succ] at hg
      exact ih hl.2 hg

theorem ascii_navigate {l : List ExecutionContext} :
    ∀ {cur v : Jval}, asciiOnly cur = true → navigate cur l = some v →
      asciiOnly v = true := by
  induction l with
  | nil =>
    intro cur v hc hn
    rw [navigate, Option.some.injEq] at hn
    subst hn
    exact hc
  | cons frame rest ih =>
    intro cur v hc hn
    match frame with
    | ExecutionContext.object none =>
      rw [navigate] at hn
      exact ih hc hn
    | ExecutionContext.object (some key) =>
      rw [navigate] at hn
      match cur, hn with
      | Jval.obj fields, hn =>
        simp only [Jval.as_object] at hn
        cases hl : List.lookup key fields with
        | none => rw [hl] at hn; exact Option.noConfusion hn
        | some w =>
          rw [hl] at hn
          have hw : asciiOnly w = true := ascii_lookup (by rwa [asciiOnly] at hc) hl
          exact ih hw hn
    | ExecutionContext.array idx start =>
      rw [navigate] at hn
      match cur, hn with
      | Jval.arr items, hn =>
        simp only [Jval.as_array] at hn
        cases hg : items[idx]? with
        | none => rw [hg] at hn; exact Option.noConfusion hn
        | some w =>
          rw [hg] at hn
          have hw : asciiOnly w = true := ascii_getElem (by rwa [asciiOnly] at hc) hg
          exact ih hw hn

theorem ascii_get_current_value {root v : Jval} {stack : List ExecutionContext}
    (hr : asciiOnly root = true) (hg : get_current_value root stack = some v) :
    asciiOnly v = true :=
  ascii_navigate hr hg

theorem ascii_str_len {s : String} (h : asciiOnly (Jval.str s) = true) :
    s.utf8ByteSize = s.length := by
  rw [asciiOnly] at h
  simpa using h

/-- C7: whenever a `CheckMinLength` or `CheckMaxLength` operation executes
while the focused value is not a string, it is a silent no-op: the
full-diagnostic engine records no issue and advances, and the boolean
fast-path does not fail on that operation. -/
theorem c7_length_check_non_string_noop (root : Jval) (ops : List ValidationOp)
    (s : FullState) (m : Nat) (v : Jval)
    (hv : get_current_value root s.context_stack = some v)
    (hstr : v.as_str = none) :
    (ops[s.ip]? = some (ValidationOp.checkMinLength m) →
      execute_step root ops s = StepRes.next { s with ip := s.ip + 1 }
      ∧ execute_bool_step root ops { context_stack := s.context_stack, ip := s.ip }
          = StepRes.next { context_stack := s.context_stack, ip := s.ip + 1 })
    ∧ (ops[s.ip]? = some (ValidationOp.checkMaxLength m) →
      execute_step root ops s = StepRes.next { s with ip := s.ip + 1 }
      ∧ execute_bool_step root ops { context_stack := s.context_stack, ip := s.ip }
          = StepRes.next { context_stack := s.context_stack, ip := s.ip + 1 }) := by
  constructor
  · intro hop
    rw [execute_step_eq_apply hop,
      execute_bool_step_eq_apply (t := { context_stack := s.context_stack, ip := s.ip }) hop]
    constructor
    · simp only [full_apply, hv, hstr]
    · simp only [bool_apply, hv, hstr]
  · intro hop
    rw [execute_step_eq_apply hop,
      execute_bool_step_eq_apply (t := { context_stack := s.context_stack, ip := s.ip }) hop]
    constructor
    · simp only [full_apply, hv, hstr]
    · simp only [bool_apply, hv, hstr]

/-- C7 witness: `minLength 3` against the number `5` is a silent no-op in
both engines. -/
theorem c7_length_check_non_string_noop_witness :
    execute_step (Jval.num (JNumber.int 5))
        [ValidationOp.checkMinLength 3, ValidationOp.done]
        { issues := [], path_stack := [], context_stack := [], ip := 0 }
      = StepRes.next { issues := [], path_stack := [], context_stack := [], ip := 0 + 1 }
    ∧ execute_bool_step (Jval.num (JNumber.int 5))
        [ValidationOp.checkMinLength 3, ValidationOp.done]
        { context_stack := [], ip := 0 }
      = StepRes.next { context_stack := [], ip := 0 + 1 } :=
  (c7_length_check_non_string_noop (Jval.num (JNumber.int 5))
    [ValidationOp.checkMinLength 3, ValidationOp.done]
    { issues := [], path_stack := [], context_stack := [], ip := 0 }
    3 (Jval.num (JNumber.int 5)) rfl rfl).1 rfl

/-- C8: on a focused string, the full-diagnostic engine's length checks
compare the bound against the character count (`chars().count()`) while the
boolean fast-path compares it against the UTF-8 byte length (`len()`); the
two checks coincide whenever byte length equals character count (all
single-byte characters), and the concrete multi-byte string `"é"` under
`minLength 2` makes the full engine fail while the boolean engine passes. -/
theorem c8_length_check_units_differ (root : Jval) (ops : List ValidationOp)
    (s : FullState) (m : Nat) (st : String)
    (hv : get_current_value root s.context_stack = some (Jval.str st)) :
    (ops[s.ip]? = some (ValidationOp.checkMinLength m) →
      execute_step root ops s =
        (if st.length < m then
          StepRes.next { s with issues := s.issues ++ [ValidationIssue.with_path ("String length " ++ toString st.length ++ " is less than minimum " ++ toString m) s.path_stack.reverse], ip := s.ip + 1 }
         else StepRes.next { s with ip := s.ip + 1 })
      ∧ execute_bool_step root ops { context_stack := s.context_stack, ip := s.ip } =
        (if st.utf8ByteSize < m then StepRes.halt false
         else StepRes.next { context_stack := s.context_stack, ip := s.ip + 1 }))
    ∧ (ops[s.ip]? = some (ValidationOp.checkMaxLength m) →
      execute_step root ops s =
        (if st.length > m then
          StepRes.next { s with issues := s.issues ++ [ValidationIssue.with_path ("String length " ++ toString st.length ++ " is greater than maximum " ++ toString m) s.path_stack.reverse], ip := s.ip + 1 }
         else StepRes.next { s with ip := s.ip + 1 })
      ∧ execute_bool_step root ops { context_stack := s.context_stack, ip := s.ip } =
        (if st.utf8ByteSize > m then StepRes.halt false
         else StepRes.next { context_stack := s.context_stack, ip := s.ip + 1 }))
    ∧ (st.utf8ByteSize = st.length →
        ((st.utf8ByteSize < m) = (st.length < m)
          ∧ (st.utf8ByteSize > m) = (st.length > m)))
    ∧ (execute_compiled (Jval.str "é")
          { ops := [ValidationOp.checkMinLength 2, ValidationOp.done] } 3
        = some (ValidationResult.failure
            [ValidationIssue.with_path
              "String length 1 is less than minimum 2" []])
      ∧ execute_compiled_bool (Jval.str "é")
          { ops := [ValidationOp.checkMinLength 2, ValidationOp.done] } 3
        = some true) := by
  refine ⟨?_, ?_, ?_, ?_, ?_⟩
  · intro hop
    rw [execute_step_eq_apply hop]
    constructor
    · simp only [full_apply, hv, Jval.as_str]
    · rw [execute_bool_step_eq_apply
        (t := { context_stack := s.context_stack, ip := s.ip }) hop]
      simp only [bool_apply, hv, Jval.as_str]
  · intro hop
    rw [execute_step_eq_apply hop]
    constructor
    · simp only [full_apply, hv, Jval.as_str]
    · rw [execute_bool_step_eq_apply
        (t := { context_stack := s.context_stack, ip := s.ip }) hop]
      simp only [bool_apply, hv, Jval.as_str]
  · intro heq
    rw [heq]
    exact ⟨rfl, rfl⟩
  · rfl
  · rfl

/-- C8 witness: on the ASCII string `"ab"` with bound 1, `minLength` passes
in both engines (step equalities instantiated concretely). -/
theorem c8_length_check_units_differ_witness :
    execute_step (Jval.str "ab") [ValidationOp.checkMinLength 1, ValidationOp.done]
        { issues := [], path_stack := [], context_stack := [], ip := 0 }
      = StepRes.next { issues := [], path_stack := [], context_stack := [], ip := 0 + 1 }
    ∧ execute_bool_step (Jval.str "ab")
        [ValidationOp.checkMinLength 1, ValidationOp.done]
        { context_stack := [], ip := 0 }
      = StepRes.next { context_stack := [], ip := 0 + 1 } := by
  have h := (c8_length_check_units_differ (Jval.str "ab")
    [ValidationOp.checkMinLength 1, ValidationOp.done]
    { issues := [], path_stack := [], context_stack := [], ip := 0 }
    1 "ab" rfl).1 rfl
  constructor
  · rw [h.1]; rfl
  · rw [h.2]; rfl

/-- C10: a `CheckProperty` with `required = true` executing while the
focused value at the enclosing object position is not a JSON object does
nothing: no missing-required issue is recorded, the boolean engine does not
fail, and both engines fall through into the property's sub-operations
(instruction pointer advances by one, no skip). -/
theorem c10_required_property_non_object_noop (root : Jval)
    (ops : List ValidationOp) (s : FullState) (key : String)
    (rest : List ExecutionContext) (v : Jval)
    (hctx : s.context_stack = ExecutionContext.object none :: rest)
    (hv : get_current_value root s.context_stack = some v)
    (hobj : v.as_object = none)
    (hop : ops[s.ip]? = some (ValidationOp.checkProperty key true)) :
    execute_step root ops s = StepRes.next { s with ip := s.ip + 1 }
    ∧ execute_bool_step root ops { context_stack := s.context_stack, ip := s.ip }
        = StepRes.next { context_stack := s.context_stack, ip := s.ip + 1 } := by
  rw [hctx] at hv
  constructor
  · rw [execute_step_eq_apply hop]
    simp only [full_apply, hctx, hv, hobj]
  · rw [execute_bool_step_eq_apply
      (t := { context_stack := s.context_stack, ip := s.ip }) hop]
    simp only [bool_apply, hctx, hv, hobj]

/-- C10 witness: `CheckProperty "name" required` against the number `5`
falls through in both engines. -/
theorem c10_required_property_non_object_noop_witness :
    execute_step (Jval.num (JNumber.int 5))
        [ValidationOp.checkProperty "name" true, ValidationOp.done]
        { issues := [], path_stack := [], context_stack := [ExecutionContext.object none], ip := 0 }
      = StepRes.next { issues := [], path_stack := [], context_stack := [ExecutionContext.object none], ip := 0 + 1 }
    ∧ execute_bool_step (Jval.num (JNumber.int 5))
        [ValidationOp.checkProperty "name" true, ValidationOp.done]
        { context_stack := [ExecutionContext.object none], ip := 0 }
      = StepRes.next { context_stack := [ExecutionContext.object none], ip := 0 + 1 } :=
  c10_required_property_non_object_noop (Jval.num (JNumber.int 5))
    [ValidationOp.checkProperty "name" true, ValidationOp.done]
    { issues := [], path_stack := [], context_stack := [ExecutionContext.object none], ip := 0 }
    "name" [] (Jval.num (JNumber.int 5)) rfl rfl rfl rfl

/-- C1 counterexample: for the schema `{"maxLength": 1}` and the value
`"é"` (one character, two UTF-8 bytes), the full-diagnostic engine succeeds
while the boolean fast-path returns `false`, so
`execute_compiled(V, compile_schema(S)).is_success()` differs from
`execute_compiled_bool(V, compile_schema(S))`. -/
theorem c1_counterexample_multibyte_string :
    execute_compiled (Jval.str "é")
        (compile_schema (Jval.obj [("maxLength", Jval.num (JNumber.int 1))])) 3
      = some (ValidationResult.success (Jval.str "é"))
    ∧ execute_compiled_bool (Jval.str "é")
        (compile_schema (Jval.obj [("maxLength", Jval.num (JNumber.int 1))])) 3
      = some false
    ∧ (ValidationResult.success (Jval.str "é")).is_success ≠ false := by
  have hc : compile_schema (Jval.obj [("maxLength", Jval.num (JNumber.int 1))])
      = { ops := [ValidationOp.checkMaxLength 1, ValidationOp.done] } := by
    simp [compile_schema, compile_schema_recursive, List.lookup, JNumber.as_u64]
  refine ⟨?_, ?_, by simp [ValidationResult.is_success]⟩
  · rw [hc]; rfl
  · rw [hc]; rfl

theorem skip_scan_go_spec (ops : List ValidationOp) :
    ∀ (fuel ip depth : Nat), ops.length - ip < fuel → 1 ≤ ip →
      (ops.length ≤ skip_scan_go ops fuel ip depth + 1)
      ∨ (∃ k r, ops[skip_scan_go ops fuel ip depth + 1]?
          = some (ValidationOp.checkProperty k r))
      ∨ ops[skip_scan_go ops fuel ip depth + 1]? = some ValidationOp.exitObject
      ∨ ops[skip_scan_go ops fuel ip depth + 1]? = some ValidationOp.exitArray := by
  intro fuel
  induction fuel with
  | zero => intro ip depth hf _; omega
  | succ f ih =>
    intro ip depth hf hip
    rw [skip_scan_go]
    split
    · next hlt =>
      split
      · exact ih (ip + 1) _ (by omega) (by omega)
      · exact ih (ip + 1) _ (by omega) (by omega)
      · next heq =>
        split
        · right; right; left
          have h1 : ip - 1 + 1 = ip := by omega
          rw [h1, List.getElem?_eq_getElem hlt, heq]
        · exact ih (ip + 1) _ (by omega) (by omega)
      · next heq =>
        split
        · right; right; right
          have h1 : ip - 1 + 1 = ip := by omega
          rw [h1, List.getElem?_eq_getElem hlt, heq]
        · exact ih (ip + 1) _ (by omega) (by omega)
      · next k r heq =>
        split
        · right; left
          refine ⟨k, r, ?_⟩
          have h1 : ip - 1 + 1 = ip := by omega
          rw [h1, List.getElem?_eq_getElem hlt, heq]
        · exact ih (ip + 1) _ (by omega) (by omega)
      · exact ih (ip + 1) _ (by omega) (by omega)
    · next hge => left; omega

theorem skip_arr_go_spec (ops : List ValidationOp) :
    ∀ (fuel ip depth : Nat), ops.length - ip < fuel → 1 ≤ ip →
      (ops.length ≤ skip_arr_go ops fuel ip depth + 1)
      ∨ ops[skip_arr_go ops fuel ip depth + 1]? = some ValidationOp.exitArray := by
  intro fuel
  induction fuel with
  | zero => intro ip depth hf _; omega
  | succ f ih =>
    intro ip depth hf hip
    rw [skip_arr_go]
    split
    · next hlt =>
      split
      · exact ih (ip + 1) _ (by omega) (by omega)
      · next heq =>
        split
        · right
          have h1 : ip - 1 + 1 = ip := by omega
          rw [h1, List.getElem?_eq_getElem hlt, heq]
        · exact ih (ip + 1) _ (by omega) (by omega)
      · exact ih (ip + 1) _ (by omega) (by omega)
    · next hge => left; omega

theorem skip_scan_result_not_cai (ops : List ValidationOp) (ip depth : Nat)
    (hip : 1 ≤ ip) :
    ops[skip_scan ops ip depth + 1]? ≠ some ValidationOp.checkArrayItems := by
  intro hc
  rcases skip_scan_go_spec ops (ops.length + 1) ip depth (by omega) hip with
    h | ⟨k, r, h⟩ | h | h
  · rw [skip_scan] at hc
    rw [List.getElem?_eq_none h] at hc
    exact Option.noConfusion hc
  · rw [skip_scan] at hc
    rw [h] at hc
    exact ValidationOp.noConfusion (Option.some.inj hc)
  · rw [skip_scan] at hc
    rw [h] at hc
    exact ValidationOp.noConfusion (Option.some.inj hc)
  · rw [skip_scan] at hc
    rw [h] at hc
    exact ValidationOp.noConfusion (Option.some.inj hc)

theorem skip_arr_result_not_cai (ops : List ValidationOp) (ip depth : Nat)
    (hip : 1 ≤ ip) :
    ops[skip_arr ops ip depth + 1]? ≠ some ValidationOp.checkArrayItems := by
  intro hc
  rcases skip_arr_go_spec ops (ops.length + 1) ip depth (by omega) hip with h | h
  · rw [skip_arr] at hc
    rw [List.getElem?_eq_none h] at hc
    exact Option.noConfusion hc
  · rw [skip_arr] at hc
    rw [h] at hc
    exact ValidationOp.noConfusion (Option.some.inj hc)

/-- The dynamic invariant tying the two engines together: whenever the
instruction pointer rests on a `CheckArrayItems`, the top of the context
stack is an array frame.  Compiled sequences guarantee it because
`CheckArrayItems` only ever directly follows `EnterArray`. -/
def FullInv (ops : List ValidationOp) (ctx : List ExecutionContext) (ip : Nat) : Prop :=
  ops[ip]? = some ValidationOp.checkArrayItems →
    ∃ (i st : Nat) (rest : List ExecutionContext),
      ctx = ExecutionContext.array i st :: rest

theorem inv_of_next_ip {ops : List ValidationOp} {ip : Nat} {op : ValidationOp}
    (hcai : cai_ok_from false ops = true) (hop : ops[ip]? = some op)
    (hne : op ≠ ValidationOp.enterArray) (ctx : List ExecutionContext) :
    FullInv ops ctx (ip + 1) := by
  intro hc
  have h2 := cai_ok_from_succ false ip hcai hc
  rw [hop] at h2
  exact absurd (Option.some.inj h2) hne

theorem inv_of_skip_scan {ops : List ValidationOp} (ip depth : Nat)
    (ctx : List ExecutionContext) :
    FullInv ops ctx (skip_scan ops (ip + 1) depth + 1) := by
  intro hc
  exact absurd hc (skip_scan_result_not_cai ops (ip + 1) depth (by omega))

theorem inv_of_skip_arr {ops : List ValidationOp} (ip depth : Nat)
    (ctx : List ExecutionContext) :
    FullInv ops ctx (skip_arr ops (ip + 1) depth + 1) := by
  intro hc
  exact absurd hc (skip_arr_result_not_cai ops (ip + 1) depth (by omega))

theorem append_singleton_ne {α : Type} (l : List α) (a : α) : l ++ [a] ≠ l := by
  intro h
  have h2 := congrArg List.length h
  simp at h2

theorem as_str_eq {v : Jval} {st : String} (h : v.as_str = some st) :
    v = Jval.str st := by
  cases v <;> simp [Jval.as_str] at h
  rw [h]

theorem full_apply_issues (root : Jval) (ops : List ValidationOp)
    (op : ValidationOp) (s : FullState) :
    (∃ s' extra, full_apply root ops op s = StepRes.next s'
      ∧ s'.issues = s.issues ++ extra)
    ∨ full_apply root ops op s = StepRes.halt s.issues := by
  cases op <;> (simp only [full_apply]; repeat' split) <;>
    first
    | exact Or.inr rfl
    | exact Or.inr trivial
    | exact Or.inl ⟨_, _, rfl, rfl⟩
    | exact Or.inl ⟨_, [], rfl, (List.append_nil _).symm⟩
    | (right; rfl)
    | (left; exact ⟨_, [], rfl, (List.append_nil _).symm⟩)

theorem apply_agree (root : Jval) (ops : List ValidationOp) (op : ValidationOp)
    (s : FullState)
    (hascii : asciiOnly root = true)
    (hcai : cai_ok_from false ops = true)
    (hop : ops[s.ip]? = some op)
    (hinv : FullInv ops s.context_stack s.ip) :
    (full_apply root ops op s = StepRes.halt s.issues
      ∧ bool_apply root ops op { context_stack := s.context_stack, ip := s.ip }
          = StepRes.halt true)
    ∨ (∃ s', full_apply root ops op s = StepRes.next s'
        ∧ s'.issues = s.issues
        ∧ bool_apply root ops op { context_stack := s.context_stack, ip := s.ip }
            = StepRes.next { context_stack := s'.context_stack, ip := s'.ip }
        ∧ FullInv ops s'.context_stack s'.ip)
    ∨ (∃ s', full_apply root ops op s = StepRes.next s'
        ∧ s'.issues ≠ s.issues
        ∧ bool_apply root ops op { context_stack := s.context_stack, ip := s.ip }
            = StepRes.halt false) := by
  cases op with
  | checkType tag =>
    cases hg : get_current_value root s.context_stack with
    | none =>
      refine Or.inr (Or.inl ⟨{ s with ip := s.ip + 1 }, ?_, rfl, ?_, ?_⟩)
      · simp only [full_apply, hg]
      · simp only [bool_apply, hg]
      · exact inv_of_next_ip hcai hop (by simp) _
    | some v =>
      cases hct : check_type_tag v tag with
      | true =>
        refine Or.inr (Or.inl ⟨{ s with ip := s.ip + 1 }, ?_, rfl, ?_, ?_⟩)
        · simp [full_apply, hg, hct]
        · simp [bool_apply, hg, hct]
        · exact inv_of_next_ip hcai hop (by simp) _
      | false =>
        refine Or.inr (Or.inr ⟨{ s with issues := s.issues ++ [ValidationIssue.with_path ("Expected type " ++ tag.name ++ ", got " ++ json_type_name v) s.path_stack.reverse], ip := s.ip + 1 },
          ?_, append_singleton_ne _ _, ?_⟩)
        · simp [full_apply, hg, hct]
        · simp [bool_apply, hg, hct]
  | checkMinimum mn =>
    cases hg : get_current_value root s.context_stack with
    | none =>
      refine Or.inr (Or.inl ⟨{ s with ip := s.ip + 1 }, ?_, rfl, ?_, ?_⟩)
      · simp only [full_apply, hg]
      · simp only [bool_apply, hg]
      · exact inv_of_next_ip hcai hop (by simp) _
    | some v =>
      cases hf : v.as_f64 with
      | none =>
        refine Or.inr (Or.inl ⟨{ s with ip := s.ip + 1 }, ?_, rfl, ?_, ?_⟩)
        · simp only [full_apply, hg, hf]
        · simp only [bool_apply, hg, hf]
        · exact inv_of_next_ip hcai hop (by simp) _
      | some x =>
        by_cases hcmp : x < mn
        · refine Or.inr (Or.inr ⟨{ s with issues := s.issues ++ [ValidationIssue.with_path ("Value " ++ toString x ++ " is less than minimum " ++ toString mn) s.path_stack.reverse], ip := s.ip + 1 }, ?_, append_singleton_ne _ _, ?_⟩)
          · simp only [full_apply, hg, hf, if_pos hcmp]
          · simp only [bool_apply, hg, hf, if_pos hcmp]
        · refine Or.inr (Or.inl ⟨{ s with ip := s.ip + 1 }, ?_, rfl, ?_, ?_⟩)
          · simp only [full_apply, hg, hf, if_neg hcmp]
          · simp only [bool_apply, hg, hf, if_neg hcmp]
          · exact inv_of_next_ip hcai hop (by simp) _
  | checkMaximum mx =>
    cases hg : get_current_value root s.context_stack with
    | none =>
      refine Or.inr (Or.inl ⟨{ s with ip := s.ip + 1 }, ?_, rfl, ?_, ?_⟩)
      · simp only [full_apply, hg]
      · simp only [bool_apply, hg]
      · exact inv_of_next_ip hcai hop (by simp) _
    | some v =>
      cases hf : v.as_f64 with
      | none =>
        refine Or.inr (Or.inl ⟨{ s with ip := s.ip + 1 }, ?_, rfl, ?_, ?_⟩)
        · simp only [full_apply, hg, hf]
        · simp only [bool_apply, hg, hf]
        · exact inv_of_next_ip hcai hop (by simp) _
      | some x =>
        by_cases hcmp : x > mx
        · refine Or.inr (Or.inr ⟨{ s with issues := s.issues ++ [ValidationIssue.with_path ("Value " ++ toString x ++ " is greater than maximum " ++ toString mx) s.path_stack.reverse], ip := s.ip + 1 }, ?_, append_singleton_ne _ _, ?_⟩)
          · simp only [full_apply, hg, hf, if_pos hcmp]
          · simp only [bool_apply, hg, hf, if_pos hcmp]
        · refine Or.inr (Or.inl ⟨{ s with ip := s.ip + 1 }, ?_, rfl, ?_, ?_⟩)
          · simp only [full_apply, hg, hf, if_neg hcmp]
          · simp only [bool_apply, hg, hf, if_neg hcmp]
          · exact inv_of_next_ip hcai hop (by simp) _
  | checkExclusiveMinimum mn =>
    cases hg : get_current_value root s.context_stack with
    | none =>
      refine Or.inr (Or.inl ⟨{ s with ip := s.ip + 1 }, ?_, rfl, ?_, ?_⟩)
      · simp only [full_apply, hg]
      · simp only [bool_apply, hg]
      · exact inv_of_next_ip hcai hop (by simp) _
    | some v =>
      cases hf : v.as_f64 with
      | none =>
        refine Or.inr (Or.inl ⟨{ s with ip := s.ip + 1 }, ?_, rfl, ?_, ?_⟩)
        · simp only [full_apply, hg, hf]
        · simp only [bool_apply, hg, hf]
        · exact inv_of_next_ip hcai hop (by simp) _
      | some x =>
        by_cases hcmp : x ≤ mn
        · refine Or.inr (Or.inr ⟨{ s with issues := s.issues ++ [ValidationIssue.with_path ("Value " ++ toString x ++ " must be greater than " ++ toString mn) s.path_stack.reverse], ip := s.ip + 1 }, ?_, append_singleton_ne _ _, ?_⟩)
          · simp only [full_apply, hg, hf, if_pos hcmp]
          · simp only [bool_apply, hg, hf, if_pos hcmp]
        · refine Or.inr (Or.inl ⟨{ s with ip := s.ip + 1 }, ?_, rfl, ?_, ?_⟩)
          · simp only [full_apply, hg, hf, if_neg hcmp]
          · simp only [bool_apply, hg, hf, if_neg hcmp]
          · exact inv_of_next_ip hcai hop (by simp) _
  | checkExclusiveMaximum mx =>
    cases hg : get_current_value root s.context_stack with
    | none =>
      refine Or.inr (Or.inl ⟨{ s with ip := s.ip + 1 }, ?_, rfl, ?_, ?_⟩)
      · simp only [full_apply, hg]
      · simp only [bool_apply, hg]
      · exact inv_of_next_ip hcai hop (by simp) _
    | some v =>
      cases hf : v.as_f64 with
      | none =>
        refine Or.inr (Or.inl ⟨{ s with ip := s.ip + 1 }, ?_, rfl, ?_, ?_⟩)
        · simp only [full_apply, hg, hf]
        · simp only [bool_apply, hg, hf]
        · exact inv_of_next_ip hcai hop (by simp) _
      | some x =>
        by_cases hcmp : x ≥ mx
        · refine Or.inr (Or.inr ⟨{ s with issues := s.issues ++ [ValidationIssue.with_path ("Value " ++ toString x ++ " must be less than " ++ toString mx) s.path_stack.reverse], ip := s.ip + 1 }, ?_, append_singleton_ne _ _, ?_⟩)
          · simp only [full_apply, hg, hf, if_pos hcmp]
          · simp only [bool_apply, hg, hf, if_pos hcmp]
        · refine Or.inr (Or.inl ⟨{ s with ip := s.ip + 1 }, ?_, rfl, ?_, ?_⟩)
          · simp only [full_apply, hg, hf, if_neg hcmp]
          · simp only [bool_apply, hg, hf, if_neg hcmp]
          · exact inv_of_next_ip hcai hop (by simp) _
  | checkMinLength mlen =>
    cases hg : get_current_value root s.context_stack with
    | none =>
      refine Or.inr (Or.inl ⟨{ s with ip := s.ip + 1 }, ?_, rfl, ?_, ?_⟩)
      · simp only [full_apply, hg]
      · simp only [bool_apply, hg]
      · exact inv_of_next_ip hcai hop (by simp) _
    | some v =>
      cases hf : v.as_str with
      | none =>
        refine Or.inr (Or.inl ⟨{ s with ip := s.ip + 1 }, ?_, rfl, ?_, ?_⟩)
        · simp only [full_apply, hg, hf]
        · simp only [bool_apply, hg, hf]
        · exact inv_of_next_ip hcai hop (by simp) _
      | some st =>
        have hlen : st.utf8ByteSize = st.length := by
          have hva := ascii_get_current_value hascii hg
          rw [as_str_eq hf] at hva
          exact ascii_str_len hva
        by_cases hcmp : st.length < mlen
        · refine Or.inr (Or.inr ⟨{ s with issues := s.issues ++ [ValidationIssue.with_path ("String length " ++ toString st.length ++ " is less than minimum " ++ toString mlen) s.path_stack.reverse], ip := s.ip + 1 }, ?_, append_singleton_ne _ _, ?_⟩)
          · simp only [full_apply, hg, hf, if_pos hcmp]
          · simp only [bool_apply, hg, hf, hlen, if_pos hcmp]
        · refine Or.inr (Or.inl ⟨{ s with ip := s.ip + 1 }, ?_, rfl, ?_, ?_⟩)
          · simp only [full_apply, hg, hf, if_neg hcmp]
          · simp only [bool_apply, hg, hf, hlen, if_neg hcmp]
          · exact inv_of_next_ip hcai hop (by simp) _
  | checkMaxLength mlen =>
    cases hg : get_current_value root s.context_stack with
    | none =>
      refine Or.inr (Or.inl ⟨{ s with ip := s.ip + 1 }, ?_, rfl, ?_, ?_⟩)
      · simp only [full_apply, hg]
      · simp only [bool_apply, hg]
      · exact inv_of_next_ip hcai hop (by simp) _
    | some v =>
      cases hf : v.as_str with
      | none =>
        refine Or.inr (Or.inl ⟨{ s with ip := s.ip + 1 }, ?_, rfl, ?_, ?_⟩)
        · simp only [full_apply, hg, hf]
        · simp only [bool_apply, hg, hf]
        · exact inv_of_next_ip hcai hop (by simp) _
      | some st =>
        have hlen : st.utf8ByteSize = st.length := by
          have hva := ascii_get_current_value hascii hg
          rw [as_str_eq hf] at hva
          exact ascii_str_len hva
        by_cases hcmp : st.length > mlen
        · refine Or.inr (Or.inr ⟨{ s with issues := s.issues ++ [ValidationIssue.with_path ("String length " ++ toString st.length ++ " is greater than maximum " ++ toString mlen) s.path_stack.reverse], ip := s.ip + 1 }, ?_, append_singleton_ne _ _, ?_⟩)
          · simp only [full_apply, hg, hf, if_pos hcmp]
          · simp only [bool_apply, hg, hf, hlen, if_pos hcmp]
        · refine Or.inr (Or.inl ⟨{ s with ip := s.ip + 1 }, ?_, rfl, ?_, ?_⟩)
          · simp only [full_apply, hg, hf, if_neg hcmp]
          · simp only [bool_apply, hg, hf, hlen, if_neg hcmp]
          · exact inv_of_next_ip hcai hop (by simp) _
  | checkMinItems mn =>
    cases hg : get_current_value root s.context_stack with
    | none =>
      refine Or.inr (Or.inl ⟨{ s with ip := s.ip + 1 }, ?_, rfl, ?_, ?_⟩)
      · simp only [full_apply, hg]
      · simp only [bool_apply, hg]
      · exact inv_of_next_ip hcai hop (by simp) _
    | some v =>
      cases hf : v.as_array with
      | none =>
        refine Or.inr (Or.inl ⟨{ s with ip := s.ip + 1 }, ?_, rfl, ?_, ?_⟩)
        · simp only [full_apply, hg, hf]
        · simp only [bool_apply, hg, hf]
        · exact inv_of_next_ip hcai hop (by simp) _
      | some arr =>
        by_cases hcmp : arr.length < mn
        · refine Or.inr (Or.inr ⟨{ s with issues := s.issues ++ [ValidationIssue.with_path ("Array has " ++ toString arr.length ++ " items, minimum is " ++ toString mn) s.path_stack.reverse], ip := s.ip + 1 }, ?_, append_singleton_ne _ _, ?_⟩)
          · simp only [full_apply, hg, hf, if_pos hcmp]
          · simp only [bool_apply, hg, hf, if_pos hcmp]
        · refine Or.inr (Or.inl ⟨{ s with ip := s.ip + 1 }, ?_, rfl, ?_, ?_⟩)
          · simp only [full_apply, hg, hf, if_neg hcmp]
          · simp only [bool_apply, hg, hf, if_neg hcmp]
          · exact inv_of_next_ip hcai hop (by simp) _
  | checkMaxItems mx =>
    cases hg : get_current_value root s.context_stack with
    | none =>
      refine Or.inr (Or.inl ⟨{ s with ip := s.ip + 1 }, ?_, rfl, ?_, ?_⟩)
      · simp only [full_apply, hg]
      · simp only [bool_apply, hg]
      · exact inv_of_next_ip hcai hop (by simp) _
    | some v =>
      cases hf : v.as_array with
      | none =>
        refine Or.inr (Or.inl ⟨{ s with ip := s.ip + 1 }, ?_, rfl, ?_, ?_⟩)
        · simp only [full_apply, hg, hf]
        · simp only [bool_apply, hg, hf]
        · exact inv_of_next_ip hcai hop (by simp) _
      | some arr =>
        by_cases hcmp : arr.length > mx
        · refine Or.inr (Or.inr ⟨{ s with issues := s.issues ++ [ValidationIssue.with_path ("Array has " ++ toString arr.length ++ " items, maximum is " ++ toString mx) s.path_stack.reverse], ip := s.ip + 1 }, ?_, append_singleton_ne _ _, ?_⟩)
          · simp only [full_apply, hg, hf, if_pos hcmp]
          · simp only [bool_apply, hg, hf, if_pos hcmp]
        · refine Or.inr (Or.inl ⟨{ s with ip := s.ip + 1 }, ?_, rfl, ?_, ?_⟩)
          · simp only [full_apply, hg, hf, if_neg hcmp]
          · simp only [bool_apply, hg, hf, if_neg hcmp]
          · exact inv_of_next_ip hcai hop (by simp) _
  | enterObject =>
    refine Or.inr (Or.inl ⟨{ s with context_stack := ExecutionContext.object none :: s.context_stack, ip := s.ip + 1 }, ?_, rfl, ?_, ?_⟩)
    · simp only [full_apply]
    · simp only [bool_apply]
    · exact inv_of_next_ip hcai hop (by simp) _
  | enterArray =>
    refine Or.inr (Or.inl ⟨{ s with context_stack := ExecutionContext.array 0 (s.ip + 1) :: s.context_stack, ip := s.ip + 1 }, ?_, rfl, ?_, ?_⟩)
    · simp only [full_apply]
    · simp only [bool_apply]
    · exact fun _ => ⟨0, s.ip + 1, s.context_stack, rfl⟩
  | exitObject =>
    refine Or.inr (Or.inl ⟨{ s with path_stack := (match s.context_stack with | ExecutionContext.object (some _) :: _ => s.path_stack.tail | _ => s.path_stack), context_stack := s.context_stack.tail, ip := s.ip + 1 }, ?_, rfl, ?_, ?_⟩)
    · simp only [full_apply]
    · simp only [bool_apply]
    · exact inv_of_next_ip hcai hop (by simp) _
  | done => exact Or.inl ⟨rfl, rfl⟩
  | checkProperty key required =>
    simp only [full_apply, bool_apply]
    cases hctx : s.context_stack with
    | nil =>
      cases hg : get_current_value root ([] : List ExecutionContext) with
      | none =>
        refine Or.inr (Or.inl ⟨{ s with path_stack := s.path_stack, context_stack := [], ip := s.ip + 1 }, ?_, rfl, ?_, ?_⟩)
        · simp only [hg]
        · simp only [hg]
        · exact inv_of_next_ip hcai hop (by simp) _
      | some ov =>
        cases ho : ov.as_object with
        | none =>
          refine Or.inr (Or.inl ⟨{ s with path_stack := s.path_stack, context_stack := [], ip := s.ip + 1 }, ?_, rfl, ?_, ?_⟩)
          · simp only [hg, ho]
          · simp only [hg, ho]
          · exact inv_of_next_ip hcai hop (by simp) _
        | some obj =>
          by_cases hk : (List.lookup key obj).isSome = true
          · refine Or.inr (Or.inl ⟨{ s with path_stack := PathSegment.key key :: s.path_stack, context_stack := [], ip := s.ip + 1 }, ?_, rfl, ?_, ?_⟩)
            · simp only [hg, ho, hk, if_pos]
            · simp only [hg, ho, hk, if_pos]
            · exact inv_of_next_ip hcai hop (by simp) _
          · cases required with
            | true =>
              refine Or.inr (Or.inr ⟨{ s with issues := s.issues ++ [ValidationIssue.with_path ("Missing required property '" ++ key ++ "'") s.path_stack.reverse], path_stack := s.path_stack, context_stack := [], ip := skip_scan ops (s.ip + 1) 0 + 1 },
                ?_, append_singleton_ne _ _, ?_⟩)
              · simp [hg, ho, hk]
              · simp [hg, ho, hk]
            | false =>
              refine Or.inr (Or.inl ⟨{ s with path_stack := s.path_stack, context_stack := [], ip := skip_scan ops (s.ip + 1) 0 + 1 }, ?_, rfl, ?_, ?_⟩)
              · simp [hg, ho, hk]
              · simp [hg, ho, hk]
              · exact inv_of_skip_scan s.ip 0 _
    | cons frame rest =>
      cases frame with
      | array i0 st0 =>
        cases hg : get_current_value root
            (ExecutionContext.array i0 st0 :: rest) with
        | none =>
          refine Or.inr (Or.inl ⟨{ s with path_stack := s.path_stack, context_stack := ExecutionContext.array i0 st0 :: rest, ip := s.ip + 1 }, ?_, rfl, ?_, ?_⟩)
          · simp only [hg]
          · simp only [hg]
          · exact inv_of_next_ip hcai hop (by simp) _
        | some ov =>
          cases ho : ov.as_object with
          | none =>
            refine Or.inr (Or.inl ⟨{ s with path_stack := s.path_stack, context_stack := ExecutionContext.array i0 st0 :: rest, ip := s.ip + 1 }, ?_, rfl, ?_, ?_⟩)
            · simp only [hg, ho]
            · simp only [hg, ho]
            · exact inv_of_next_ip hcai hop (by simp) _
          | some obj =>
            by_cases hk : (List.lookup key obj).isSome = true
            · refine Or.inr (Or.inl ⟨{ s with path_stack := PathSegment.key key :: s.path_stack, context_stack := ExecutionContext.array i0 st0 :: rest, ip := s.ip + 1 }, ?_, rfl, ?_, ?_⟩)
              · simp only [hg, ho, hk, if_pos]
              · simp only [hg, ho, hk, if_pos]
              · exact inv_of_next_ip hcai hop (by simp) _
            · cases required with
              | true =>
                refine Or.inr (Or.inr ⟨{ s with issues := s.issues ++ [ValidationIssue.with_path ("Missing required property '" ++ key ++ "'") s.path_stack.reverse], path_stack := s.path_stack, context_stack := ExecutionContext.array i0 st0 :: rest, ip := skip_scan ops (s.ip + 1) 0 + 1 },
                  ?_, append_singleton_ne _ _, ?_⟩)
                · simp [hg, ho, hk]
                · simp [hg, ho, hk]
              | false =>
                refine Or.inr (Or.inl ⟨{ s with path_stack := s.path_stack, context_stack := ExecutionContext.array i0 st0 :: rest, ip := skip_scan ops (s.ip + 1) 0 + 1 }, ?_, rfl, ?_, ?_⟩)
                · simp [hg, ho, hk]
                · simp [hg, ho, hk]
                · exact inv_of_skip_scan s.ip 0 _
      | object okey =>
        cases okey with
        | none =>
          cases hg : get_current_value root
              (ExecutionContext.object none :: rest) with
          | none =>
            refine Or.inr (Or.inl ⟨{ s with path_stack := s.path_stack, context_stack := ExecutionContext.object none :: rest, ip := s.ip + 1 }, ?_, rfl, ?_, ?_⟩)
            · simp only [hg]
            · simp only [hg]
            · exact inv_of_next_ip hcai hop (by simp) _
          | some ov =>
            cases ho : ov.as_object with
            | none =>
              refine Or.inr (Or.inl ⟨{ s with path_stack := s.path_stack, context_stack := ExecutionContext.object none :: rest, ip := s.ip + 1 }, ?_, rfl, ?_, ?_⟩)
              · simp only [hg, ho]
              · simp only [hg, ho]
              · exact inv_of_next_ip hcai hop (by simp) _
            | some obj =>
              by_cases hk : (List.lookup key obj).isSome = true
              · refine Or.inr (Or.inl ⟨{ s with path_stack := PathSegment.key key :: s.path_stack, context_stack := ExecutionContext.object (some key) :: rest, ip := s.ip + 1 }, ?_, rfl, ?_, ?_⟩)
                · simp only [hg, ho, hk, if_pos]
                · simp only [hg, ho, hk, if_pos]
                · exact inv_of_next_ip hcai hop (by simp) _
              · cases required with
                | true =>
                  refine Or.inr (Or.inr ⟨{ s with issues := s.issues ++ [ValidationIssue.with_path ("Missing required property '" ++ key ++ "'") s.path_stack.reverse], path_stack := s.path_stack, context_stack := ExecutionContext.object none :: rest, ip := skip_scan ops (s.ip + 1) 0 + 1 },
                    ?_, append_singleton_ne _ _, ?_⟩)
                  · simp [hg, ho, hk]
                  · simp [hg, ho, hk]
                | false =>
                  refine Or.inr (Or.inl ⟨{ s with path_stack := s.path_stack, context_stack := ExecutionContext.object none :: rest, ip := skip_scan ops (s.ip + 1) 0 + 1 }, ?_, rfl, ?_, ?_⟩)
                  · simp [hg, ho, hk]
                  · simp [hg, ho, hk]
                  · exact inv_of_skip_scan s.ip 0 _
        | some k0 =>
          cases hg : get_current_value root
              (ExecutionContext.object none :: rest) with
          | none =>
            refine Or.inr (Or.inl ⟨{ s with path_stack := s.path_stack.tail, context_stack := ExecutionContext.object none :: rest, ip := s.ip + 1 }, ?_, rfl, ?_, ?_⟩)
            · simp only [hg]
            · simp only [hg]
            · exact inv_of_next_ip hcai hop (by simp) _
          | some ov =>
            cases ho : ov.as_object with
            | none =>
              refine Or.inr (Or.inl ⟨{ s with path_stack := s.path_stack.tail, context_stack := ExecutionContext.object none :: rest, ip := s.ip + 1 }, ?_, rfl, ?_, ?_⟩)
              · simp only [hg, ho]
              · simp only [hg, ho]
              · exact inv_of_next_ip hcai hop (by simp) _
            | some obj =>
              by_cases hk : (List.lookup key obj).isSome = true
              · refine Or.inr (Or.inl ⟨{ s with path_stack := PathSegment.key key :: s.path_stack.tail, context_stack := ExecutionContext.object (some key) :: rest, ip := s.ip + 1 }, ?_, rfl, ?_, ?_⟩)
                · simp only [hg, ho, hk, if_pos]
                · simp only [hg, ho, hk, if_pos]
                · exact inv_of_next_ip hcai hop (by simp) _
              · cases required with
                | true =>
                  refine Or.inr (Or.inr ⟨{ s with issues := s.issues ++ [ValidationIssue.with_path ("Missing required property '" ++ key ++ "'") s.path_stack.tail.reverse], path_stack := s.path_stack.tail, context_stack := ExecutionContext.object none :: rest, ip := skip_scan ops (s.ip + 1) 0 + 1 },
                    ?_, append_singleton_ne _ _, ?_⟩)
                  · simp [hg, ho, hk]
                  · simp [hg, ho, hk]
                | false =>
                  refine Or.inr (Or.inl ⟨{ s with path_stack := s.path_stack.tail, context_stack := ExecutionContext.object none :: rest, ip := skip_scan ops (s.ip + 1) 0 + 1 }, ?_, rfl, ?_, ?_⟩)
                  · simp [hg, ho, hk]
                  · simp [hg, ho, hk]
                  · exact inv_of_skip_scan s.ip 0 _
  | checkArrayItems =>
    obtain ⟨i, st0, rest, hctx⟩ := hinv hop
    simp only [full_apply, bool_apply, hctx, List.tail_cons]
    cases hg : get_current_value root rest with
    | none =>
      refine Or.inr (Or.inl ⟨{ s with path_stack := if 0 < i then s.path_stack.tail else s.path_stack, ip := skip_arr ops (s.ip + 1) 1 + 1 }, ?_, rfl, ?_, ?_⟩)
      · simp [hg, hctx]
      · simp [hg, hctx, Nat.zero_le]
      · rw [hctx]
        exact inv_of_skip_arr s.ip 1 _
    | some av =>
      cases ha : av.as_array with
      | none =>
        refine Or.inr (Or.inl ⟨{ s with path_stack := if 0 < i then s.path_stack.tail else s.path_stack, ip := skip_arr ops (s.ip + 1) 1 + 1 }, ?_, rfl, ?_, ?_⟩)
        · simp [hg, ha, hctx]
        · simp [hg, ha, hctx, Nat.zero_le]
        · rw [hctx]
          exact inv_of_skip_arr s.ip 1 _
      | some items =>
        by_cases hcmp : i < items.length
        · refine Or.inr (Or.inl ⟨{ s with path_stack := PathSegment.index i :: (if 0 < i then s.path_stack.tail else s.path_stack), ip := s.ip + 1 }, ?_, rfl, ?_, ?_⟩)
          · simp [hg, ha, hctx, hcmp]
          · simp [hg, ha, hctx, hcmp, Nat.not_le_of_lt hcmp]
          · rw [hctx]
            exact inv_of_next_ip hcai hop (by simp) _
        · refine Or.inr (Or.inl ⟨{ s with path_stack := if 0 < i then s.path_stack.tail else s.path_stack, ip := skip_arr ops (s.ip + 1) 1 + 1 }, ?_, rfl, ?_, ?_⟩)
          · simp [hg, ha, hctx, hcmp]
          · simp [hg, ha, hctx, Nat.le_of_not_lt hcmp]
          · rw [hctx]
            exact inv_of_skip_arr s.ip 1 _
  | exitArray =>
    simp only [full_apply, bool_apply]
    cases hctx : s.context_stack with
    | nil =>
      refine Or.inr (Or.inl ⟨{ s with context_stack := [], ip := s.ip + 1 }, ?_, rfl, ?_, ?_⟩)
      · rfl
      · rfl
      · exact inv_of_next_ip hcai hop (by simp) _
    | cons frame rest =>
      cases frame with
      | object okey =>
        refine Or.inr (Or.inl ⟨{ s with context_stack := rest, ip := s.ip + 1 }, ?_, rfl, ?_, ?_⟩)
        · rfl
        · rfl
        · exact inv_of_next_ip hcai hop (by simp) _
      | array i st0 =>
        cases hg : get_current_value root rest with
        | none =>
          refine Or.inr (Or.inl ⟨{ s with path_stack := if i < 0 then s.path_stack.tail else s.path_stack, context_stack := rest, ip := s.ip + 1 }, ?_, rfl, ?_, ?_⟩)
          · simp [hg]
          · simp [hg]
          · exact inv_of_next_ip hcai hop (by simp) _
        | some av =>
          cases ha : av.as_array with
          | none =>
            refine Or.inr (Or.inl ⟨{ s with path_stack := if i < 0 then s.path_stack.tail else s.path_stack, context_stack := rest, ip := s.ip + 1 }, ?_, rfl, ?_, ?_⟩)
            · simp [hg, ha]
            · simp [hg, ha]
            · exact inv_of_next_ip hcai hop (by simp) _
          | some items =>
            by_cases hcmp : i + 1 < items.length
            · refine Or.inr (Or.inl ⟨{ s with path_stack := if i < items.length then s.path_stack.tail else s.path_stack, context_stack := ExecutionContext.array (i + 1) st0 :: rest, ip := st0 - 1 + 1 }, ?_, rfl, ?_, ?_⟩)
              · simp [hg, ha, hcmp]
              · simp [hg, ha, hcmp]
              · exact fun _ => ⟨i + 1, st0, rest, rfl⟩
            · refine Or.inr (Or.inl ⟨{ s with path_stack := if i < items.length then s.path_stack.tail else s.path_stack, context_stack := rest, ip := s.ip + 1 }, ?_, rfl, ?_, ?_⟩)
              · simp [hg, ha, hcmp]
              · simp [hg, ha, hcmp]
              · exact inv_of_next_ip hcai hop (by simp) _

theorem run_full_mono (root : Jval) (ops : List ValidationOp) :
    ∀ (fuel : Nat) (s : FullState) (r : List ValidationIssue),
      run (execute_step root ops) fuel s = some r →
      ∃ extra, r = s.issues ++ extra := by
  intro fuel
  induction fuel with
  | zero => intro s r h; simp [run] at h
  | succ f ih =>
    intro s r h
    rw [run] at h
    by_cases hlt : s.ip < ops.length
    · have hop : ops[s.ip]? = some ops[s.ip] := List.getElem?_eq_getElem hlt
      rw [execute_step_eq_apply hop] at h
      rcases full_apply_issues root ops ops[s.ip] s with ⟨s', extra, heq, hiss⟩ | heq
      · rw [heq] at h
        simp only [] at h
        obtain ⟨e2, he2⟩ := ih s' r h
        exact ⟨extra ++ e2, by rw [he2, hiss, List.append_assoc]⟩
      · rw [heq] at h
        simp only [Option.some.injEq] at h
        exact ⟨[], by rw [← h, List.append_nil]⟩
    · unfold execute_step at h
      rw [dif_neg hlt] at h
      simp only [Option.some.injEq] at h
      exact ⟨[], by rw [← h, List.append_nil]⟩

theorem run_bisim (root : Jval) (ops : List ValidationOp)
    (hascii : asciiOnly root = true) (hcai : cai_ok_from false ops = true) :
    ∀ (fuel : Nat) (s : FullState) (r : List ValidationIssue),
      s.issues = [] → FullInv ops s.context_stack s.ip →
      run (execute_step root ops) fuel s = some r →
      run (execute_bool_step root ops) fuel
          { context_stack := s.context_stack, ip := s.ip } = some r.isEmpty := by
  intro fuel
  induction fuel with
  | zero => intro s r _ _ h; simp [run] at h
  | succ f ih =>
    intro s r hiss hinv h
    rw [run] at h
    rw [run]
    by_cases hlt : s.ip < ops.length
    · have hop : ops[s.ip]? = some ops[s.ip] := List.getElem?_eq_getElem hlt
      rw [execute_step_eq_apply hop] at h
      rw [execute_bool_step_eq_apply
        (t := { context_stack := s.context_stack, ip := s.ip }) hop]
      rcases apply_agree root ops ops[s.ip] s hascii hcai hop hinv with
        ⟨hff, hbb⟩ | ⟨s', hff, hsi, hbb, hinv'⟩ | ⟨s', hff, hsi, hbb⟩
      · rw [hff] at h
        rw [hbb]
        simp only [Option.some.injEq] at h
        rw [← h, hiss]
        rfl
      · rw [hff] at h
        rw [hbb]
        simp only [] at h
        exact ih s' r (by rw [hsi, hiss]) hinv' h
      · rw [hff] at h
        rw [hbb]
        simp only [] at h
        obtain ⟨extra, hr⟩ := run_full_mono root ops f s' r h
        have hrne : r ≠ [] := by
          rw [hr]
          intro hnil
          rcases List.append_eq_nil.mp hnil with ⟨h1, _⟩
          exact hsi (by rw [h1, hiss])
        have : r.isEmpty = false := by
          cases r with
          | nil => exact absurd rfl hrne
          | cons a l => rfl
        rw [this]
    · unfold execute_step at h
      rw [dif_neg hlt] at h
      simp only [Option.some.injEq] at h
      unfold execute_bool_step
      rw [dif_neg hlt]
      rw [← h, hiss]
      rfl

/-- C1 amended: for every schema `S`, every input `V` whose strings are all
single-byte (ASCII) so that the two engines' string-length units coincide,
and every fuel at which the full-diagnostic engine terminates, the boolean
fast-path engine terminates with exactly
`execute_compiled(V, compile_schema(S)).is_success()`. -/
theorem c1_engines_agree_on_ascii (S V : Jval) (fuel : Nat)
    (r : ValidationResult Jval) (hascii : asciiOnly V = true)
    (hfull : execute_compiled V (compile_schema S) fuel = some r) :
    execute_compiled_bool V (compile_schema S) fuel = some r.is_success := by
  have hcai : cai_ok_from false (compile_schema S).ops = true := by
    show cai_ok_from false (compile_schema_recursive S ++ [ValidationOp.done]) = true
    rw [cai_ok_from_append]
    rw [emits_cai (emits_compile S) false]
    rfl
  unfold execute_compiled at hfull
  cases hR : run (execute_step V (compile_schema S).ops) fuel
      { issues := [], path_stack := [], context_stack := [], ip := 0 } with
  | none => rw [hR] at hfull; simp at hfull
  | some il =>
    rw [hR] at hfull
    simp only [Option.map_some', Option.some.injEq] at hfull
    have hinv0 : FullInv (compile_schema S).ops ([] : List ExecutionContext) 0 := by
      intro hc
      exact absurd hc (cai_ok_from_zero hcai)
    have hb := run_bisim V (compile_schema S).ops hascii hcai fuel
      { issues := [], path_stack := [], context_stack := [], ip := 0 }
      il rfl hinv0 hR
    unfold execute_compiled_bool
    rw [hb]
    rw [← hfull]
    cases hE : il.isEmpty with
    | true => simp [ValidationResult.is_success, hE]
    | false => simp [ValidationResult.is_success, hE]

/-- C1 witness: on the ASCII input `"hi"` against the schema
`{"type": "string"}`, the full engine succeeds and the boolean engine
agrees. -/
theorem c1_engines_agree_on_ascii_witness :
    execute_compiled_bool (Jval.str "hi")
        (compile_schema (Jval.obj [("type", Jval.str "string")])) 5
      = some (ValidationResult.success (Jval.str "hi")).is_success := by
  apply c1_engines_agree_on_ascii (Jval.obj [("type", Jval.str "string")])
    (Jval.str "hi") 5
  · rfl
  · have hc : compile_schema (Jval.obj [("type", Jval.str "string")])
        = { ops := [ValidationOp.checkType TypeTag.string, ValidationOp.done] } := by
      simp [compile_schema, compile_schema_recursive, List.lookup, Jval.as_str,
        parse_type_tag]
    rw [hc]
    rfl

/-- C3 witness: the compiled top-level property list for concrete `null`
sub-schemas. -/
theorem c3_top_level_check_properties_witness :
    props_at_depth (compile_schema (Jval.obj
      [("type", Jval.str "object"),
       ("properties", Jval.obj [("a", Jval.null), ("b", Jval.null)]),
       ("required", Jval.arr [Jval.str "a"])])).ops 0
      = [("a", true), ("b", false)] :=
  c3_top_level_check_properties Jval.null Jval.null

/-- C4 witness: well-formedness facts evaluated on the concrete schema
`{"items": {}}`. -/
theorem c4_compiled_wellformed_witness :
    balAux (compile_schema_recursive (Jval.obj [("items", Jval.obj [])])) []
        = some []
    ∧ (compile_schema (Jval.obj [("items", Jval.obj [])])).ops.getLast?
        = some ValidationOp.done
    ∧ (compile_schema (Jval.obj [("items", Jval.obj [])])).ops[1]?
        = some ValidationOp.checkArrayItems := by
  have hc : compile_schema (Jval.obj [("items", Jval.obj [])])
      = { ops := [ValidationOp.enterArray, ValidationOp.checkArrayItems,
          ValidationOp.exitArray, ValidationOp.done] } := by
    simp [compile_schema, compile_schema_recursive, List.lookup]
  refine ⟨(c4_compiled_wellformed (Jval.obj [("items", Jval.obj [])])).2.1,
    (c4_compiled_wellformed (Jval.obj [("items", Jval.obj [])])).2.2.2.1,
    (c4_compiled_wellformed (Jval.obj [("items", Jval.obj [])])).2.2.2.2 0 ?_⟩
  rw [hc]
  rfl

/-- C6 witness: after registering `null` under `"User"` in a fresh registry,
the stored entry is exactly that document with its compilation. -/
theorem c6_register_replaces_witness :
    List.lookup "User" ((SchemaRegistry.new).register "User" Jval.null).schemas
      = some { schema := Jval.null, compiled := compile_schema Jval.null } :=
  (c6_register_replaces SchemaRegistry.new "User" Jval.null Jval.null 1).1
